import Mathlib

/-! A verification development for the minimal HTTP/1.1 connection engine (`http.go`).

The Go package is embedded shallowly:

* a Go `string` / `[]byte` is a `List Char`, one `Char` per byte;
* the `bufio.Reader` over the connection is the list of events its underlying
  `Read` calls will produce (a byte, or a failed call), followed by end of file;
* the `net.Conn` seen as an `io.Writer` is the bytes written so far plus the
  number of bytes it will still accept;
* `time.Now()` formatted with the HTTP date layout is an input of the serializer;
* the handler is a state transformer on the `Response` it is handed.
-/

namespace Http

/-- A Go `string` or `[]byte`: a sequence of bytes. -/
abbrev Bytes := List Char

/-- The error values the package produces or passes on. -/
inductive Err where
  | eof
  | io
  | shortWrite
  | malformed (ln : Bytes)
  | unsupported (status : Int)
  deriving DecidableEq, Repr

deriving instance DecidableEq for Except

/-! ## Library functions used by the package -/

/-- What one `Read` on the underlying connection contributes: a byte, or a failure. -/
inductive Ev where
  | byte (c : Char)
  | fail
  deriving DecidableEq, Repr

/-- A `bufio.Reader`: the events still to come; after the last one every read hits end
of file. -/
abbrev Reader := List Ev

/-- The reader of a connection on which the peer sent `b` and then closed. -/
def ofBytes (b : Bytes) : Reader := b.map Ev.byte

/-- Go `(*bufio.Reader).ReadString(delim)`: the bytes up to and including the first
`delim`; when an error comes first, the bytes read before it together with the error. -/
def ReadString : Reader → Char → (Bytes × Option Err) × Reader
  | [], _ => (([], some Err.eof), [])
  | Ev.fail :: r, _ => (([], some Err.io), r)
  | Ev.byte c :: r, delim =>
    if c = delim then (([c], none), r)
    else
      let res := ReadString r delim
      ((c :: res.1.1, res.1.2), res.2)

/-- Go `strings.TrimSuffix(s, suffix)`. -/
def TrimSuffix (s suffix : Bytes) : Bytes :=
  if suffix.isSuffixOf s then s.take (s.length - suffix.length) else s

/-- Go `strings.Split(s, sep)` for a separator of one byte, as the package calls it. -/
def Split : Bytes → Char → List Bytes
  | [], _ => [[]]
  | c :: t, sep =>
    if c = sep then [] :: Split t sep
    else
      match Split t sep with
      | [] => [[c]]
      | x :: xs => (c :: x) :: xs

/-- Go `bytes.Contains(b, subslice)`. -/
def Contains : Bytes → Bytes → Bool
  | [], sub => sub.isEmpty
  | c :: t, sub => sub.isPrefixOf (c :: t) || Contains t sub

/-- Go `fmt.Sprintf("%d", n)` for a length. -/
def fmtNat (n : Nat) : Bytes := Nat.toDigits 10 n

/-- Go `fmt.Sprintf("%v", n)` for an `int`. -/
def fmtInt : Int → Bytes
  | Int.ofNat n => fmtNat n
  | Int.negSucc n => '-' :: fmtNat (n + 1)

/-- An `io.Writer`: what it has received, and how many more bytes it accepts before its
writes fail (`none`: it accepts everything). -/
structure Writer where
  out : Bytes
  room : Option Nat
  deriving DecidableEq, Repr

/-- Go `w.Write(p)`: the writer after the call, the count written, the error. -/
def Writer.Write (w : Writer) (p : Bytes) : Writer × Nat × Option Err :=
  match w.room with
  | none => ({ w with out := w.out ++ p }, p.length, none)
  | some k =>
    if p.length ≤ k then ({ out := w.out ++ p, room := some (k - p.length) }, p.length, none)
    else ({ out := w.out ++ p.take k, room := some 0 }, k, some Err.io)

/-- Go `(*bytes.Buffer).WriteTo(w)`: drains the buffer into `w` with one `Write`, and makes
no call when the buffer is empty. Returns the writer, the buffer left, the error. -/
def bufWriteTo (buf : Bytes) (w : Writer) : Writer × Bytes × Option Err :=
  if 0 < buf.length then
    match w.Write buf with
    | (w1, m, some e) => (w1, buf.drop m, some e)
    | (w1, m, none) =>
      if m ≠ buf.length then (w1, buf.drop m, some Err.shortWrite) else (w1, [], none)
  else (w, [], none)

/-! ## The package -/

/-- Go `type Response struct`. -/
structure Response where
  Status : Int
  keepalive : Bool
  buf : Bytes
  deriving DecidableEq, Repr

/-- Go `type Request struct`; `Body` is an interface value, `none` when nil. -/
structure Request where
  Method : Bytes
  URI : Bytes
  Headers : Bytes
  Body : Option Reader
  deriving DecidableEq, Repr

/-- Go `type Handler func(*Response, *Request)`: a function that may carry state of its own
(`σ`) and mutates the response it is handed. -/
abbrev Handler (σ : Type) := σ → Response → Request → σ × Response

/-- The package variable `bad`. -/
def bad : Bytes := "HTTP/1.1 400 Bad Request\r\nConnection: close\r\n\r\n".toList

/-- The package variable `keepalive`. -/
def keepalive : Bytes := "keep-alive".toList

/-- Go `(*Request).isKeepalive`. -/
def Request.isKeepalive (req : Request) : Bool :=
  if Contains req.Headers keepalive then true else false

/-- Go `readHTTPLine`: the line and the error, and the reader after the call. -/
def readHTTPLine (buf : Reader) : (Bytes × Option Err) × Reader :=
  match ReadString buf '\n' with
  | ((_, some err), buf1) => (([], some err), buf1)
  | ((ln, none), buf1) => ((TrimSuffix ln "\r\n".toList, none), buf1)

/-- Go `parseRequestLine`: `(method, uri, ok)`. -/
def parseRequestLine (ln : Bytes) : Bytes × Bytes × Bool :=
  match Split ln ' ' with
  | [m, u, _] => (m, u, true)
  | _ => ([], [], false)

/-- The header loop of `readRequest` (`for { ... }`), bounded by `fuel` iterations;
`none` when the bound is used up. -/
def readHeaders : Nat → Reader → Request → Option (Except Err Request × Reader)
  | 0, _, _ => none
  | fuel + 1, buf, req =>
    match readHTTPLine buf with
    | ((_, some err), buf1) => some (Except.error err, buf1)
    | ((ln, none), buf1) =>
      if ln.length = 0 then some (Except.ok req, buf1)
      else readHeaders fuel buf1 { req with Headers := req.Headers ++ ln }

/-- Go `readRequest`: the request (`return req, nil`) or the error (`return nil, err`), and
the reader after the call. Every iteration of the header loop that goes on has consumed an
event, so the number of events bounds the loop; `none` would mean the bound was too small. -/
def readRequest (buf : Reader) : Option (Except Err Request × Reader) :=
  let req : Request := { Method := [], URI := [], Headers := [], Body := none }
  match readHTTPLine buf with
  | ((ln0, none), buf1) =>
    match parseRequestLine ln0 with
    | (_, _, false) => some (Except.error (Err.malformed ln0), buf1)
    | (method, uri, true) =>
      readHeaders (buf1.length + 1) buf1 { req with Method := method, URI := uri }
  | ((_, some _), buf1) => readHeaders (buf1.length + 1) buf1 req

/-- The reason phrase chosen by the `switch` of `writeHeadersTo`. -/
def statusText (status : Int) : Bytes :=
  if status = 200 then "OK".toList
  else if status = 201 then "Created".toList
  else if status = 202 then "Accepted".toList
  else if status = 203 then "Non-Authoritative Information".toList
  else if status = 204 then "No Content".toList
  else []

/-- Go `(*Response).writeHeadersTo`; `now` is `time.Now().UTC()` in the HTTP date layout.
Returns the writer after the call and the error. -/
def Response.writeHeadersTo (res : Response) (w : Writer) (now : Bytes) : Writer × Option Err :=
  if statusText res.Status = [] then (w, some (Err.unsupported res.Status))
  else
    let headers := "1.1".toList ++ " ".toList ++ fmtInt res.Status ++ " ".toList
      ++ statusText res.Status ++ "\r\n".toList
    let headers := headers ++ ("Date: ".toList ++ now ++ "\r\n".toList)
    let headers :=
      if res.keepalive then headers ++ ("Connection: ".toList ++ Http.keepalive ++ "\r\n".toList)
      else headers
    let headers := headers ++ ("Content-Length: ".toList ++ fmtNat res.buf.length ++ "\r\n".toList)
    let headers := headers ++ "\r\n".toList
    match w.Write headers with
    | (w1, _, some err) => (w1, some err)
    | (w1, _, none) => (w1, none)

/-- Go `(*Response).writeTo`: the writer and the response after the call, and the error. -/
def Response.writeTo (res : Response) (w : Writer) (now : Bytes) :
    Writer × Response × Option Err :=
  match res.writeHeadersTo w now with
  | (w1, some err) => (w1, res, some err)
  | (w1, none) =>
    match bufWriteTo res.buf w1 with
    | (w2, rest, some err) => (w2, { res with buf := rest }, some err)
    | (w2, rest, none) => (w2, { res with buf := rest }, none)

/-- One connection while `serve` runs: the handler's own state, the buffered reader, the
connection as a writer, the arguments of every handler call so far, and the number of
cycles of the loop completed. -/
structure Conn (σ : Type) where
  hstate : σ
  buf : Reader
  netConn : Writer
  calls : List (Response × Request)
  cycles : Nat
  deriving DecidableEq

/-- The `for` loop of `serve`, bounded by `fuel` cycles; `clock k` is the formatted time
`time.Now()` gives during cycle `k`. Returning is closing the connection
(`defer hc.netConn.Close()`). -/
def serveLoop {σ : Type} (handler : Handler σ) (clock : Nat → Bytes) :
    Nat → Conn σ → Option (Conn σ)
  | 0, _ => none
  | fuel + 1, hc =>
    match readRequest hc.buf with
    | none => none
    | some (Except.error _, buf1) =>
      some { hc with buf := buf1, netConn := (hc.netConn.Write bad).1 }
    | some (Except.ok req, buf1) =>
      let res : Response := { Status := 200, keepalive := false, buf := [] }
      let res := { res with keepalive := req.isKeepalive }
      let hr := handler hc.hstate res req
      let wr := hr.2.writeTo hc.netConn (clock hc.cycles)
      let hc1 : Conn σ :=
        { hstate := hr.1, buf := buf1, netConn := wr.1,
          calls := hc.calls ++ [(res, req)], cycles := hc.cycles + 1 }
      if wr.2.2.isSome then some hc1
      else if !wr.2.1.keepalive then some hc1
      else serveLoop handler clock fuel hc1

/-- Go `(*httpConn).serve` on a fresh connection. A cycle that goes on has read a request,
hence consumed events, so the number of events bounds the cycles. -/
def serve {σ : Type} (handler : Handler σ) (clock : Nat → Bytes) (s : σ) (buf : Reader)
    (w : Writer) : Option (Conn σ) :=
  serveLoop handler clock (buf.length + 1)
    { hstate := s, buf := buf, netConn := w, calls := [], cycles := 0 }


/-! ## Inputs of the shape the wire protocol describes -/

/-- The line terminator CRLF. -/
def crlf : Bytes := "\r\n".toList

/-- A run of header lines on the wire, each followed by CRLF. -/
def headerBlock (hs : List Bytes) : Bytes := (hs.map (fun h => h ++ crlf)).flatten

/-- The request line `METHOD SP URI SP VERSION` built from its three tokens. -/
def requestLine (m u v : Bytes) : Bytes := m ++ ' ' :: (u ++ ' ' :: v)

/-- A request on the wire: the request line, the header lines, the blank line. -/
def wireRequest (m u v : Bytes) (hs : List Bytes) : Bytes :=
  requestLine m u v ++ crlf ++ headerBlock hs ++ crlf

/-- A token of a request line holds neither a space nor a line feed. -/
def Token (t : Bytes) : Prop := ' ' ∉ t ∧ '\n' ∉ t

instance (t : Bytes) : Decidable (Token t) := by unfold Token; infer_instance

/-- Header lines as they stand between their terminators: non-empty, without a line feed. -/
def HeaderLines (hs : List Bytes) : Prop := ∀ h ∈ hs, h ≠ [] ∧ '\n' ∉ h

instance (hs : List Bytes) : Decidable (HeaderLines hs) := by unfold HeaderLines; infer_instance

/-- The response layout of the specification (section 4.4), in its words: the status line
(version token, status code, reason phrase, CRLF), a Date header, a Connection header when
the keep-alive flag is set, the Content-Length of the body, a blank line, the body. -/
def expectedResponse (version code reason date : Bytes) (ka : Bool) (body : Bytes) : Bytes :=
  (version ++ " ".toList ++ code ++ " ".toList ++ reason ++ crlf)
    ++ ("Date: ".toList ++ date ++ crlf)
    ++ (if ka then "Connection: keep-alive".toList ++ crlf else [])
    ++ ("Content-Length: ".toList ++ Nat.toDigits 10 body.length ++ crlf)
    ++ crlf
    ++ body

/-- The status codes of the specification with their decimal form and standard reason
phrase. -/
def supported : List (Int × Bytes × Bytes) :=
  [(200, "200".toList, "OK".toList), (201, "201".toList, "Created".toList),
   (202, "202".toList, "Accepted".toList),
   (203, "203".toList, "Non-Authoritative Information".toList),
   (204, "204".toList, "No Content".toList)]

/-- The whitespace-delimited tokens of a line, in the specification's words: the maximal
runs of bytes that are not whitespace; `cur` is the run being read. -/
def whitespaceTokens : Bytes → Bytes → List Bytes
  | [], cur => if cur = [] then [] else [cur]
  | c :: t, cur =>
    if c = ' ' ∨ c = '\t' ∨ c = '\r' ∨ c = '\n' then
      (if cur = [] then whitespaceTokens t [] else cur :: whitespaceTokens t [])
    else whitespaceTokens t (cur ++ [c])

/-- A connection just accepted: nothing written yet, and it accepts every byte. -/
def conn0 : Writer := { out := [], room := none }

/-- The response `serve` hands to the handler for the request `req`. -/
def fresh (req : Request) : Response :=
  { Status := 200, keepalive := req.isKeepalive, buf := [] }

/-- A request as the wire grammar describes it: the three tokens of its request line and
its header lines. -/
structure Wire where
  m : Bytes
  u : Bytes
  v : Bytes
  hs : List Bytes
  deriving DecidableEq, Repr

/-- The bytes of a request on the wire. -/
def Wire.bytes (q : Wire) : Bytes := wireRequest q.m q.u q.v q.hs

/-- The request that `readRequest` is to build from a request on the wire. -/
def Wire.request (q : Wire) : Request :=
  { Method := q.m, URI := q.u, Headers := q.hs.flatten, Body := none }

/-- A request on the wire is well formed when its tokens and header lines are. -/
def Wire.WellFormed (q : Wire) : Prop := Token q.m ∧ Token q.u ∧ Token q.v ∧ HeaderLines q.hs

instance (q : Wire) : Decidable q.WellFormed := by unfold Wire.WellFormed; infer_instance

/-- Requests sent back to back on one connection. -/
def wireStream (qs : List Wire) : Bytes := (qs.map Wire.bytes).flatten

/-- The bytes one cycle is to put on the wire for the response `r` the handler left, in the
specification's words: its serialization, or nothing at all when its status is unsupported. -/
def cycleBytes (now : Bytes) (r : Response) : Bytes :=
  if statusText r.Status = [] then []
  else expectedResponse "1.1".toList (fmtInt r.Status) (statusText r.Status) now r.keepalive r.buf

/-- The output the specification describes for a run of requests: each request is answered
from a response created fresh for it (status 200, empty body), and what the handler made of
an earlier response plays no part. -/
def replay {σ : Type} (handler : Handler σ) (clock : Nat → Bytes) :
    σ → Nat → List Request → Bytes
  | _, _, [] => []
  | s, k, req :: rs =>
    cycleBytes (clock k) (handler s (fresh req) req).2
      ++ replay handler clock (handler s (fresh req) req).1 (k + 1) rs

/-- One full response per request, in order: the output the specification describes for
requests that are all answered with a supported status. -/
def responses {σ : Type} (handler : Handler σ) (clock : Nat → Bytes) :
    σ → Nat → List Request → Bytes
  | _, _, [] => []
  | s, k, req :: rs =>
    expectedResponse "1.1".toList (fmtInt (handler s (fresh req) req).2.Status)
        (statusText (handler s (fresh req) req).2.Status) (clock k)
        (handler s (fresh req) req).2.keepalive (handler s (fresh req) req).2.buf
      ++ responses handler clock (handler s (fresh req) req).1 (k + 1) rs

/-! ## The library functions -/

theorem ofBytes_append (a b : Bytes) : ofBytes (a ++ b) = ofBytes a ++ ofBytes b := by
  simp [ofBytes]

theorem ofBytes_cons (c : Char) (b : Bytes) : ofBytes (c :: b) = Ev.byte c :: ofBytes b := rfl

theorem length_ofBytes (b : Bytes) : (ofBytes b).length = b.length := by
  simp [ofBytes]

theorem ReadString_line (ln : Bytes) (d : Char) (r : Reader) (h : d ∉ ln) :
    ReadString (ofBytes ln ++ Ev.byte d :: r) d = ((ln ++ [d], none), r) := by
  induction ln with
  | nil => simp [ofBytes, ReadString]
  | cons c t ih =>
    have hc : c ≠ d := fun e => h (by simp [e])
    have ht : d ∉ t := fun e => h (by simp [e])
    rw [ofBytes_cons, List.cons_append, ReadString, if_neg hc, ih ht]
    rfl

theorem ReadString_eof (s : Bytes) (d : Char) (h : d ∉ s) :
    ReadString (ofBytes s) d = ((s, some Err.eof), []) := by
  induction s with
  | nil => simp [ofBytes, ReadString]
  | cons c t ih =>
    have hc : c ≠ d := fun e => h (by simp [e])
    have ht : d ∉ t := fun e => h (by simp [e])
    rw [ofBytes_cons, ReadString, if_neg hc, ih ht]

theorem TrimSuffix_append (ln suf : Bytes) : TrimSuffix (ln ++ suf) suf = ln := by
  have h : suf.isSuffixOf (ln ++ suf) = true := by
    rw [List.isSuffixOf_iff_suffix]; exact List.suffix_append ln suf
  simp [TrimSuffix, h]

theorem readHTTPLine_crlf (ln : Bytes) (r : Reader) (h : '\n' ∉ ln) :
    readHTTPLine (ofBytes (ln ++ crlf) ++ r) = ((ln, none), r) := by
  have e : ofBytes (ln ++ crlf) ++ r = ofBytes (ln ++ ['\r']) ++ Ev.byte '\n' :: r := by
    simp [ofBytes, crlf]
  have h2 : '\n' ∉ ln ++ ['\r'] := by simp [h]
  have e2 : ln ++ ['\r'] ++ ['\n'] = ln ++ "\r\n".toList := by simp
  rw [e]
  simp only [readHTTPLine, ReadString_line _ _ _ h2, e2, TrimSuffix_append]

theorem readHTTPLine_eof (s : Bytes) (h : '\n' ∉ s) :
    readHTTPLine (ofBytes s) = (([], some Err.eof), []) := by
  simp only [readHTTPLine, ReadString_eof _ _ h]


theorem Split_ne_nil (s : Bytes) (sep : Char) : Split s sep ≠ [] := by
  induction s with
  | nil => simp [Split]
  | cons c t ih =>
    unfold Split
    split
    · simp
    · split <;> simp

theorem Split_cons_ne (c sep : Char) (t : Bytes) (h : c ≠ sep) :
    Split (c :: t) sep = ((c :: (Split t sep).headD []) :: (Split t sep).tail) := by
  rw [Split, if_neg h]
  cases e : Split t sep with
  | nil => exact absurd e (Split_ne_nil t sep)
  | cons x xs => simp

theorem Split_of_not_mem (a : Bytes) (sep : Char) (h : sep ∉ a) : Split a sep = [a] := by
  induction a with
  | nil => simp [Split]
  | cons c t ih =>
    have hc : c ≠ sep := fun e => h (by simp [e])
    have ht : sep ∉ t := fun e => h (by simp [e])
    rw [Split_cons_ne c sep t hc, ih ht]; rfl

theorem Split_append_sep (a t : Bytes) (sep : Char) (h : sep ∉ a) :
    Split (a ++ sep :: t) sep = a :: Split t sep := by
  induction a with
  | nil => simp [Split]
  | cons c u ih =>
    have hc : c ≠ sep := fun e => h (by simp [e])
    have hu : sep ∉ u := fun e => h (by simp [e])
    rw [List.cons_append, Split_cons_ne c sep _ hc, ih hu]; rfl

theorem length_Split (s : Bytes) (sep : Char) : (Split s sep).length = s.count sep + 1 := by
  induction s with
  | nil => simp [Split]
  | cons c t ih =>
    by_cases hc : c = sep
    · subst hc; simp [Split, ih]
    · rw [Split_cons_ne c sep t hc]
      have hne := Split_ne_nil t sep
      have hl : (Split t sep).tail.length + 1 = (Split t sep).length := by
        cases e : Split t sep with
        | nil => exact absurd e hne
        | cons x xs => simp
      rw [List.length_cons, hl, ih, List.count_cons_of_ne (Ne.symm hc)]

/-- What `Split` returns, read backwards: the pieces hold no separator and, put back together
with one separator between neighbours, give the string. -/
theorem Split_spec (s : Bytes) (sep : Char) :
    (∀ x ∈ Split s sep, sep ∉ x) ∧ s = List.intercalate [sep] (Split s sep) := by
  induction s with
  | nil => simp [Split, List.intercalate]
  | cons c t ih =>
    obtain ⟨ih1, ih2⟩ := ih
    by_cases hc : c = sep
    · subst hc
      rw [Split, if_pos rfl]
      refine ⟨?_, ?_⟩
      · intro x hx
        rcases List.mem_cons.1 hx with rfl | hx
        · simp
        · exact ih1 x hx
      · cases e : Split t c with
        | nil => exact absurd e (Split_ne_nil t c)
        | cons y ys =>
          rw [e] at ih2
          rw [ih2]
          simp [List.intercalate, List.intersperse]
    · rw [Split_cons_ne c sep t hc]
      cases e : Split t sep with
      | nil => exact absurd e (Split_ne_nil t sep)
      | cons y ys =>
        rw [e] at ih1 ih2
        refine ⟨?_, ?_⟩
        · intro x hx
          simp only [List.headD_cons, List.tail_cons, List.mem_cons] at hx
          rcases hx with rfl | hx
          · intro hm
            rcases List.mem_cons.1 hm with h1 | h1
            · exact hc h1.symm
            · exact ih1 y (by simp) h1
          · exact ih1 x (by simp [hx])
        · rw [ih2]
          cases ys <;> simp [List.intercalate, List.intersperse]

theorem Contains_iff (s sub : Bytes) : Contains s sub = true ↔ sub <:+: s := by
  induction s with
  | nil =>
    simp [Contains, List.isEmpty_iff]
  | cons c t ih =>
    rw [Contains, Bool.or_eq_true, ih, List.isPrefixOf_iff_prefix, List.infix_cons_iff]


/-! ## Reading lines and requests -/

theorem ReadString_length_le (buf : Reader) (d : Char) :
    (ReadString buf d).2.length ≤ buf.length := by
  induction buf with
  | nil => simp [ReadString]
  | cons e r ih =>
    cases e with
    | fail => simp [ReadString]
    | byte c =>
      rw [ReadString]
      split
      · simp
      · simp only [List.length_cons]; omega

theorem ReadString_length_lt (buf : Reader) (d : Char) (h : (ReadString buf d).1.2 = none) :
    (ReadString buf d).2.length < buf.length := by
  induction buf with
  | nil => simp [ReadString] at h
  | cons e r ih =>
    cases e with
    | fail => simp [ReadString] at h
    | byte c =>
      rw [ReadString] at h ⊢
      split
      · simp
      · rename_i hc
        rw [if_neg hc] at h
        have := ih h
        simp only [List.length_cons]; omega

theorem readHTTPLine_length_le (buf : Reader) : (readHTTPLine buf).2.length ≤ buf.length := by
  have h := ReadString_length_le buf '\n'
  unfold readHTTPLine
  split <;> rename_i e <;> rw [e] at h <;> exact h

theorem readHTTPLine_length_lt (buf : Reader) (h : (readHTTPLine buf).1.2 = none) :
    (readHTTPLine buf).2.length < buf.length := by
  have h1 := ReadString_length_lt buf '\n'
  unfold readHTTPLine at h ⊢
  split <;> rename_i e <;> rw [e] at h h1
  · simp at h
  · exact h1 rfl

/-- The header loop returns whenever its bound exceeds the number of unread events, and a
request it returns has cost at least one event. -/
theorem readHeaders_total (fuel : Nat) (buf : Reader) (req : Request) (h : buf.length < fuel) :
    ∃ v, readHeaders fuel buf req = some v ∧ v.2.length ≤ buf.length ∧
      (∀ r, v.1 = Except.ok r → v.2.length < buf.length) := by
  induction fuel generalizing buf req with
  | zero => omega
  | succ n ih =>
    rw [readHeaders]
    have hle := readHTTPLine_length_le buf
    have hlt := readHTTPLine_length_lt buf
    rcases e : readHTTPLine buf with ⟨⟨ln, err⟩, buf1⟩
    rw [e] at hle hlt
    cases err with
    | some err => exact ⟨_, rfl, hle, by intro r hr; cases hr⟩
    | none =>
      have hlt1 : buf1.length < buf.length := hlt rfl
      by_cases hl : ln.length = 0
      · simp only [hl, if_true]
        exact ⟨_, rfl, hle, fun _ _ => hlt1⟩
      · simp only [hl, if_false]
        obtain ⟨v, hv, hv1, _⟩ := ih buf1 { req with Headers := req.Headers ++ ln } (by omega)
        exact ⟨v, hv, by omega, fun _ _ => by omega⟩

/-- Function `readRequest` always returns, and a request it returns has cost at least one
event. -/
theorem readRequest_total (buf : Reader) :
    ∃ v, readRequest buf = some v ∧ v.2.length ≤ buf.length ∧
      (∀ r, v.1 = Except.ok r → v.2.length < buf.length) := by
  unfold readRequest
  have hle := readHTTPLine_length_le buf
  rcases e : readHTTPLine buf with ⟨⟨ln, err⟩, buf1⟩
  rw [e] at hle
  cases err with
  | some err =>
    obtain ⟨v, hv, hv1, hv2⟩ := readHeaders_total (buf1.length + 1) buf1
      { Method := [], URI := [], Headers := [], Body := none } (by omega)
    exact ⟨v, hv, by simp only at hle; omega, fun r hr => by
      have := hv2 r hr; simp only at hle; omega⟩
  | none =>
    simp only
    rcases e2 : parseRequestLine ln with ⟨m, u, ok⟩
    cases ok with
    | false =>
      refine ⟨_, rfl, hle, ?_⟩
      intro r hr; cases hr
    | true =>
      obtain ⟨v, hv, hv1, hv2⟩ := readHeaders_total (buf1.length + 1) buf1
        { Method := m, URI := u, Headers := [], Body := none } (by omega)
      exact ⟨v, hv, by simp only at hle; omega, fun r hr => by
        have := hv2 r hr; simp only at hle; omega⟩


theorem headerBlock_cons (h : Bytes) (hs : List Bytes) :
    headerBlock (h :: hs) = h ++ crlf ++ headerBlock hs := by
  simp [headerBlock]

theorem length_le_headerBlock (hs : List Bytes) : hs.length ≤ (headerBlock hs).length := by
  induction hs with
  | nil => simp
  | cons h t ih =>
    rw [headerBlock_cons]
    simp only [List.length_append, List.length_cons, crlf]
    simp only [String.toList, List.length_cons, List.length_nil]
    omega

/-- The header loop on a block of non-empty header lines closed by the blank line. -/
theorem readHeaders_block (hs : List Bytes) (r : Reader) (req : Request) (fuel : Nat)
    (hfuel : hs.length < fuel) (hh : ∀ h ∈ hs, h ≠ [] ∧ '\n' ∉ h) :
    readHeaders fuel (ofBytes (headerBlock hs ++ crlf) ++ r) req =
      some (Except.ok { req with Headers := req.Headers ++ hs.flatten }, r) := by
  induction hs generalizing req fuel with
  | nil =>
    obtain ⟨n, rfl⟩ : ∃ n, fuel = n + 1 := ⟨fuel - 1, by omega⟩
    have e := readHTTPLine_crlf [] r (by simp)
    simp only [List.nil_append] at e
    simp [readHeaders, headerBlock, e]
  | cons h t ih =>
    obtain ⟨n, rfl⟩ : ∃ n, fuel = n + 1 := ⟨fuel - 1, by omega⟩
    obtain ⟨hne, hnl⟩ := hh h (by simp)
    have e : ofBytes (headerBlock (h :: t) ++ crlf) ++ r =
        ofBytes (h ++ crlf) ++ (ofBytes (headerBlock t ++ crlf) ++ r) := by
      rw [headerBlock_cons]; simp [ofBytes_append]
    have hl : h.length ≠ 0 := by simpa using hne
    rw [e, readHeaders, readHTTPLine_crlf h _ hnl]
    simp only [hl, if_false]
    rw [ih _ n (by simp only [List.length_cons] at hfuel; omega)
      (fun x hx => hh x (by simp [hx]))]
    simp

/-- The header loop on a block of header lines that the stream ends without closing. -/
theorem readHeaders_open (hs : List Bytes) (tl : Bytes) (req : Request) (fuel : Nat)
    (hfuel : hs.length < fuel) (hh : ∀ h ∈ hs, h ≠ [] ∧ '\n' ∉ h) (htl : '\n' ∉ tl) :
    readHeaders fuel (ofBytes (headerBlock hs ++ tl)) req = some (Except.error Err.eof, []) := by
  induction hs generalizing req fuel with
  | nil =>
    obtain ⟨n, rfl⟩ : ∃ n, fuel = n + 1 := ⟨fuel - 1, by omega⟩
    simp [readHeaders, headerBlock, readHTTPLine_eof tl htl]
  | cons h t ih =>
    obtain ⟨n, rfl⟩ : ∃ n, fuel = n + 1 := ⟨fuel - 1, by omega⟩
    obtain ⟨hne, hnl⟩ := hh h (by simp)
    have e : ofBytes (headerBlock (h :: t) ++ tl) =
        ofBytes (h ++ crlf) ++ ofBytes (headerBlock t ++ tl) := by
      rw [headerBlock_cons]; simp [ofBytes_append]
    have hl : h.length ≠ 0 := by simpa using hne
    rw [e, readHeaders, readHTTPLine_crlf h _ hnl]
    simp only [hl, if_false]
    exact ih _ n (by simp only [List.length_cons] at hfuel; omega)
      (fun x hx => hh x (by simp [hx]))

/-- A request line, a block of header lines and the blank line: `readRequest` returns the
request and leaves what follows unread. -/
theorem readRequest_wellformed (ln0 m u : Bytes) (hs : List Bytes) (r : Reader)
    (h0 : '\n' ∉ ln0) (hp : parseRequestLine ln0 = (m, u, true))
    (hh : ∀ h ∈ hs, h ≠ [] ∧ '\n' ∉ h) :
    readRequest (ofBytes (ln0 ++ crlf ++ headerBlock hs ++ crlf) ++ r) =
      some (Except.ok { Method := m, URI := u, Headers := hs.flatten, Body := none }, r) := by
  have e : ofBytes (ln0 ++ crlf ++ headerBlock hs ++ crlf) ++ r =
      ofBytes (ln0 ++ crlf) ++ (ofBytes (headerBlock hs ++ crlf) ++ r) := by
    simp [ofBytes_append]
  rw [e, readRequest, readHTTPLine_crlf ln0 _ h0]
  simp only [hp]
  rw [readHeaders_block hs r _ _ _ hh]
  · simp
  · have := length_le_headerBlock hs
    simp only [List.length_append, length_ofBytes]
    omega

/-- A request line that does not parse: `readRequest` fails on it at once. -/
theorem readRequest_malformed (ln0 : Bytes) (r : Reader) (h0 : '\n' ∉ ln0)
    (hp : (parseRequestLine ln0).2.2 = false) :
    readRequest (ofBytes (ln0 ++ crlf) ++ r) = some (Except.error (Err.malformed ln0), r) := by
  rw [readRequest, readHTTPLine_crlf ln0 _ h0]
  rcases e : parseRequestLine ln0 with ⟨m, u, ok⟩
  rw [e] at hp
  simp only at hp
  subst hp
  simp only [e]

/-- A stream that ends before any line feed: `readRequest` fails. -/
theorem readRequest_eof (inp : Bytes) (h : '\n' ∉ inp) :
    readRequest (ofBytes inp) = some (Except.error Err.eof, []) := by
  rw [readRequest, readHTTPLine_eof inp h]
  simp [readHeaders, ReadString, readHTTPLine]

/-- A stream that ends inside the header block: `readRequest` fails. -/
theorem readRequest_open (ln0 : Bytes) (hs : List Bytes) (tl : Bytes) (h0 : '\n' ∉ ln0)
    (hh : ∀ h ∈ hs, h ≠ [] ∧ '\n' ∉ h) (htl : '\n' ∉ tl) :
    ∃ err buf1, readRequest (ofBytes (ln0 ++ crlf ++ headerBlock hs ++ tl)) =
      some (Except.error err, buf1) := by
  have e : ofBytes (ln0 ++ crlf ++ headerBlock hs ++ tl) =
      ofBytes (ln0 ++ crlf) ++ ofBytes (headerBlock hs ++ tl) := by
    simp [ofBytes_append]
  rw [e, readRequest, readHTTPLine_crlf ln0 _ h0]
  rcases e2 : parseRequestLine ln0 with ⟨m, u, ok⟩
  cases ok with
  | false => simp only [e2]; exact ⟨_, _, rfl⟩
  | true =>
    simp only [e2]
    rw [readHeaders_open hs tl _ _ _ hh htl]
    · exact ⟨_, _, rfl⟩
    · have := length_le_headerBlock hs
      simp only [List.length_append, length_ofBytes]
      omega


/-! ## The serializer and the connection loop -/

theorem parseRequestLine_requestLine (m u v : Bytes) (hm : ' ' ∉ m) (hu : ' ' ∉ u)
    (hv : ' ' ∉ v) : parseRequestLine (requestLine m u v) = (m, u, true) := by
  unfold parseRequestLine requestLine
  rw [Split_append_sep m _ ' ' hm, Split_append_sep u _ ' ' hu, Split_of_not_mem v ' ' hv]

theorem parseRequestLine_ok_iff (ln : Bytes) :
    (parseRequestLine ln).2.2 = true ↔ (Split ln ' ').length = 3 := by
  unfold parseRequestLine
  split
  · rename_i e; simp [e]
  · rename_i e
    constructor
    · intro h; simp at h
    · intro h
      match e2 : Split ln ' ', h with
      | [a, b, c], _ => exact absurd e2 (e a b c)

theorem statusText_eq_nil (status : Int)
    (h : status ≠ 200 ∧ status ≠ 201 ∧ status ≠ 202 ∧ status ≠ 203 ∧ status ≠ 204) :
    statusText status = [] := by
  simp [statusText, h.1, h.2.1, h.2.2.1, h.2.2.2.1, h.2.2.2.2]

theorem supported_spec (status : Int) (code reason : Bytes)
    (h : (status, code, reason) ∈ supported) :
    fmtInt status = code ∧ statusText status = reason ∧ reason ≠ [] := by
  simp only [supported, List.mem_cons, Prod.mk.injEq, List.mem_singleton, List.not_mem_nil,
    or_false] at h
  rcases h with ⟨rfl, rfl, rfl⟩ | ⟨rfl, rfl, rfl⟩ | ⟨rfl, rfl, rfl⟩ | ⟨rfl, rfl, rfl⟩ |
    ⟨rfl, rfl, rfl⟩ <;> decide

theorem supported_of_statusText (status : Int) (h : statusText status ≠ []) :
    (status, fmtInt status, statusText status) ∈ supported := by
  unfold statusText at h
  split at h
  · subst status; decide
  · split at h
    · subst status; decide
    · split at h
      · subst status; decide
      · split at h
        · subst status; decide
        · split at h
          · subst status; decide
          · exact absurd rfl h

/-- The serializer on a supported status and a writer that accepts everything. -/
theorem writeTo_supported (res : Response) (w : Writer) (now : Bytes)
    (hs : statusText res.Status ≠ []) (hw : w.room = none) :
    res.writeTo w now =
      ({ out := w.out ++ expectedResponse "1.1".toList (fmtInt res.Status)
            (statusText res.Status) now res.keepalive res.buf, room := none },
        { res with buf := [] }, none) := by
  obtain ⟨out, room⟩ := w
  simp only at hw
  subst hw
  obtain ⟨st, ka, body⟩ := res
  simp only at hs
  cases ka <;> cases body <;>
    simp [Response.writeTo, Response.writeHeadersTo, hs, Writer.Write, bufWriteTo,
      expectedResponse, Http.keepalive, crlf, fmtNat]

/-- The serializer on an unsupported status: an error, and the writer is not touched. -/
theorem writeTo_unsupported (res : Response) (w : Writer) (now : Bytes)
    (hs : statusText res.Status = []) :
    res.writeTo w now = (w, res, some (Err.unsupported res.Status)) := by
  simp [Response.writeTo, Response.writeHeadersTo, hs]

theorem serveLoop_error {σ : Type} (handler : Handler σ) (clock : Nat → Bytes) (n : Nat)
    (hc : Conn σ) (err : Err) (buf1 : Reader)
    (h : readRequest hc.buf = some (Except.error err, buf1)) :
    serveLoop handler clock (n + 1) hc =
      some { hc with buf := buf1, netConn := (hc.netConn.Write bad).1 } := by
  rw [serveLoop, h]

theorem serveLoop_ok {σ : Type} (handler : Handler σ) (clock : Nat → Bytes) (n : Nat)
    (hc : Conn σ) (req : Request) (buf1 : Reader)
    (h : readRequest hc.buf = some (Except.ok req, buf1)) :
    serveLoop handler clock (n + 1) hc =
      (let hr := handler hc.hstate (fresh req) req
       let wr := hr.2.writeTo hc.netConn (clock hc.cycles)
       let hc1 : Conn σ :=
        { hstate := hr.1, buf := buf1, netConn := wr.1,
          calls := hc.calls ++ [(fresh req, req)], cycles := hc.cycles + 1 }
       if wr.2.2.isSome then some hc1
       else if !wr.2.1.keepalive then some hc1
       else serveLoop handler clock n hc1) := by
  rw [serveLoop, h]
  rfl

/-- The loop returns whenever its bound exceeds the number of unread events, and a property
of the handler calls that holds for the response `serve` builds holds for every call. -/
theorem serveLoop_total {σ : Type} (handler : Handler σ) (clock : Nat → Bytes)
    (P : Response × Request → Prop) (hP : ∀ req, P (fresh req, req)) (fuel : Nat) (hc : Conn σ)
    (hfuel : hc.buf.length < fuel) (hcalls : ∀ c ∈ hc.calls, P c) :
    ∃ st, serveLoop handler clock fuel hc = some st ∧ ∀ c ∈ st.calls, P c := by
  induction fuel generalizing hc with
  | zero => omega
  | succ n ih =>
    obtain ⟨v, hv, _, hlt⟩ := readRequest_total hc.buf
    obtain ⟨res, buf1⟩ := v
    cases res with
    | error err =>
      rw [serveLoop_error handler clock n hc err buf1 hv]
      exact ⟨_, rfl, hcalls⟩
    | ok req =>
      rw [serveLoop_ok handler clock n hc req buf1 hv]
      have hlt1 : buf1.length < hc.buf.length := hlt req rfl
      have hc1 : ∀ c ∈ hc.calls ++ [(fresh req, req)], P c := by
        intro c hmem
        rcases List.mem_append.1 hmem with h1 | h1
        · exact hcalls c h1
        · rw [List.mem_singleton.1 h1]; exact hP req
      simp only
      split
      · exact ⟨_, rfl, hc1⟩
      · split
        · exact ⟨_, rfl, hc1⟩
        · exact ih _ (by simp only; omega) hc1


/-- The first cycle of `serve` on a stream that opens with a well-formed request. -/
theorem serve_wellformed {σ : Type} (handler : Handler σ) (clock : Nat → Bytes) (s : σ)
    (m u v : Bytes) (hs : List Bytes) (rest : Bytes) (w : Writer)
    (hm : Token m) (hu : Token u) (hv : Token v) (hh : HeaderLines hs) :
    serve handler clock s (ofBytes (wireRequest m u v hs ++ rest)) w =
      (let req : Request := { Method := m, URI := u, Headers := hs.flatten, Body := none }
       let hr := handler s (fresh req) req
       let wr := hr.2.writeTo w (clock 0)
       let hc1 : Conn σ :=
        { hstate := hr.1, buf := ofBytes rest, netConn := wr.1,
          calls := [(fresh req, req)], cycles := 1 }
       if wr.2.2.isSome then some hc1
       else if !wr.2.1.keepalive then some hc1
       else serveLoop handler clock (ofBytes (wireRequest m u v hs ++ rest)).length hc1) := by
  have h0 : '\n' ∉ requestLine m u v := by
    simp [requestLine, hm.2, hu.2, hv.2]
  have hr := readRequest_wellformed (requestLine m u v) m u hs (ofBytes rest) h0
    (parseRequestLine_requestLine m u v hm.1 hu.1 hv.1) hh
  rw [serve, serveLoop_ok handler clock _ _ _ (ofBytes rest)]
  · rfl
  · rw [← hr, ofBytes_append]; rfl

/-- One cycle of the loop on a connection whose stream opens with a well-formed request. -/
theorem serveLoop_wellformed {σ : Type} (handler : Handler σ) (clock : Nat → Bytes) (n : Nat)
    (hc : Conn σ) (m u v : Bytes) (hs : List Bytes) (rest : Bytes)
    (hbuf : hc.buf = ofBytes (wireRequest m u v hs ++ rest))
    (hm : Token m) (hu : Token u) (hv : Token v) (hh : HeaderLines hs) :
    serveLoop handler clock (n + 1) hc =
      (let req : Request := { Method := m, URI := u, Headers := hs.flatten, Body := none }
       let hr := handler hc.hstate (fresh req) req
       let wr := hr.2.writeTo hc.netConn (clock hc.cycles)
       let hc1 : Conn σ :=
        { hstate := hr.1, buf := ofBytes rest, netConn := wr.1,
          calls := hc.calls ++ [(fresh req, req)], cycles := hc.cycles + 1 }
       if wr.2.2.isSome then some hc1
       else if !wr.2.1.keepalive then some hc1
       else serveLoop handler clock n hc1) := by
  have h0 : '\n' ∉ requestLine m u v := by
    simp [requestLine, hm.2, hu.2, hv.2]
  have hr := readRequest_wellformed (requestLine m u v) m u hs (ofBytes rest) h0
    (parseRequestLine_requestLine m u v hm.1 hu.1 hv.1) hh
  rw [serveLoop_ok handler clock n hc _ (ofBytes rest)]
  rw [hbuf, ← hr, ofBytes_append]; rfl

theorem two_le_length_wireRequest (m u v : Bytes) (hs : List Bytes) :
    2 ≤ (wireRequest m u v hs).length := by
  simp only [wireRequest, requestLine, crlf, List.length_append, List.length_cons,
    String.toList, List.length_nil]
  omega

theorem statusText_ne_nil (status : Int) (code reason : Bytes)
    (h : (status, code, reason) ∈ supported) : statusText status ≠ [] := by
  obtain ⟨_, h2, h3⟩ := supported_spec status code reason h
  rw [h2]; exact h3

/-! ## Streams that never close the header block -/

theorem exists_first_lf (b : Bytes) (h : '\n' ∈ b) :
    ∃ ln rest, b = ln ++ '\n' :: rest ∧ '\n' ∉ ln := by
  induction b with
  | nil => simp at h
  | cons c t ih =>
    by_cases hc : c = '\n'
    · exact ⟨[], t, by simp [hc], by simp⟩
    · have ht : '\n' ∈ t := by
        rcases List.mem_cons.1 h with h1 | h1
        · exact absurd h1.symm hc
        · exact h1
      obtain ⟨ln, rest, e, hn⟩ := ih ht
      refine ⟨c :: ln, rest, by simp [e], ?_⟩
      intro hm
      rcases List.mem_cons.1 hm with h1 | h1
      · exact hc h1.symm
      · exact hn h1

theorem readHTTPLine_lf (ln rest : Bytes) (h : '\n' ∉ ln) :
    readHTTPLine (ofBytes (ln ++ '\n' :: rest)) =
      ((TrimSuffix (ln ++ ['\n']) crlf, none), ofBytes rest) := by
  have e : ofBytes (ln ++ '\n' :: rest) = ofBytes ln ++ Ev.byte '\n' :: ofBytes rest := by
    simp [ofBytes]
  rw [e]
  simp only [readHTTPLine, ReadString_line _ _ _ h]
  rfl

/-- A line ending in a line feed is trimmed to nothing only when it is CRLF alone. -/
theorem TrimSuffix_lf_eq_nil (ln : Bytes) (h : TrimSuffix (ln ++ ['\n']) crlf = []) :
    ln = ['\r'] := by
  unfold TrimSuffix at h
  split at h
  · rename_i hs
    rw [List.isSuffixOf_iff_suffix] at hs
    obtain ⟨x, hx⟩ := hs
    have e : x ++ crlf = (x ++ ['\r']) ++ ['\n'] := by simp [crlf]
    rw [e] at hx
    have hx1 : x ++ ['\r'] = ln := List.append_inj_left' hx rfl
    rw [← hx] at h
    simp [crlf] at h
    rw [← hx1, h]
    rfl
  · simp at h

/-- The header loop fails on a stream that neither starts with CRLF nor holds a line feed
followed by CRLF. -/
theorem readHeaders_unclosed (fuel : Nat) (b : Bytes) (req : Request) (hfuel : b.length < fuel)
    (h1 : ¬ crlf <+: b) (h2 : ¬ ('\n' :: crlf) <:+: b) :
    ∃ err buf1, readHeaders fuel (ofBytes b) req = some (Except.error err, buf1) := by
  induction fuel generalizing b req with
  | zero => omega
  | succ n ih =>
    by_cases hlf : '\n' ∈ b
    · obtain ⟨ln, rest, e, hn⟩ := exists_first_lf b hlf
      subst e
      rw [readHeaders, readHTTPLine_lf ln rest hn]
      have hne : (TrimSuffix (ln ++ ['\n']) crlf).length ≠ 0 := by
        intro h0
        have := TrimSuffix_lf_eq_nil ln (List.length_eq_zero.1 h0)
        subst this
        exact h1 ⟨rest, by simp [crlf]⟩
      simp only [hne, if_false]
      apply ih
      · simp only [List.length_append, List.length_cons] at hfuel; omega
      · rintro ⟨t, ht⟩
        exact h2 ⟨ln, t, by rw [← ht]; simp⟩
      · rintro ⟨p, q, hpq⟩
        exact h2 ⟨ln ++ '\n' :: p, q, by rw [← hpq]; simp⟩
    · rw [readHeaders, readHTTPLine_eof b hlf]
      exact ⟨_, _, rfl⟩

/-- Function `readRequest` fails on every stream without a line feed followed by CRLF. -/
theorem readRequest_unclosed (inp : Bytes) (h : ¬ ('\n' :: crlf) <:+: inp) :
    ∃ err buf1, readRequest (ofBytes inp) = some (Except.error err, buf1) := by
  by_cases hlf : '\n' ∈ inp
  · obtain ⟨ln, rest, e, hn⟩ := exists_first_lf inp hlf
    subst e
    rw [readRequest, readHTTPLine_lf ln rest hn]
    rcases e2 : parseRequestLine (TrimSuffix (ln ++ ['\n']) crlf) with ⟨m, u, ok⟩
    cases ok with
    | false => simp only [e2]; exact ⟨_, _, rfl⟩
    | true =>
      simp only [e2]
      apply readHeaders_unclosed
      · simp [length_ofBytes]
      · rintro ⟨t, ht⟩
        exact h ⟨ln, t, by rw [← ht]; simp⟩
      · rintro ⟨p, q, hpq⟩
        exact h ⟨ln ++ '\n' :: p, q, by rw [← hpq]; simp⟩
  · exact ⟨_, _, readRequest_eof inp hlf⟩

/-! ## The claims -/

/-- Claim C1, evaluated on the code: for the default response (status 200, no body, no
keep-alive) on a fresh connection, `writeHeadersTo` succeeds and the bytes it emits start
with the line `1.1 200 OK`; they do not start with the scheme prefix `HTTP/`. -/
theorem C1_status_line_lacks_scheme_prefix (now : Bytes) :
    ({ Status := 200, keepalive := false, buf := [] } : Response).writeHeadersTo conn0 now =
      ({ out := "1.1 200 OK\r\nDate: ".toList ++ now ++ "\r\nContent-Length: 0\r\n\r\n".toList,
         room := none }, none) ∧
    ¬ ("HTTP/".toList <+:
      (({ Status := 200, keepalive := false, buf := [] } : Response).writeHeadersTo
        conn0 now).1.out) := by
  have e : ({ Status := 200, keepalive := false, buf := [] } : Response).writeHeadersTo
      conn0 now =
      ({ out := "1.1 200 OK\r\nDate: ".toList ++ now ++ "\r\nContent-Length: 0\r\n\r\n".toList,
         room := none }, none) := by
    have d200 : Nat.toDigits 10 200 = ['2', '0', '0'] := by decide
    have d0 : Nat.toDigits 10 0 = ['0'] := by decide
    simp [Response.writeHeadersTo, statusText, Writer.Write, conn0, fmtInt, fmtNat, d200, d0]
  refine ⟨e, ?_⟩
  rw [e]
  rintro ⟨t, ht⟩
  simp at ht

/-- Claim C2: for a status among 200..204 (with `code` its decimal form and `reason` its
reason phrase), any keep-alive flag and any body buffer, `writeTo` on a writer that accepts
all bytes succeeds and adds to the connection exactly: the status line, the Date header, the
header `Connection: keep-alive` if and only if the flag is set, `Content-Length` with the
decimal byte length of the buffer, the empty line, then the buffer verbatim. -/
theorem C2_writeTo_emits_layout (res : Response) (w : Writer) (now code reason : Bytes)
    (hs : (res.Status, code, reason) ∈ supported) (hw : w.room = none) :
    res.writeTo w now =
      ({ out := w.out ++
          (("1.1".toList ++ " ".toList ++ code ++ " ".toList ++ reason ++ "\r\n".toList)
            ++ ("Date: ".toList ++ now ++ "\r\n".toList)
            ++ (if res.keepalive then "Connection: keep-alive\r\n".toList else [])
            ++ ("Content-Length: ".toList ++ Nat.toDigits 10 res.buf.length ++ "\r\n".toList)
            ++ "\r\n".toList
            ++ res.buf),
         room := none },
        { res with buf := [] }, none) := by
  obtain ⟨h1, h2, h3⟩ := supported_spec res.Status code reason hs
  rw [writeTo_supported res w now (by rw [h2]; exact h3) hw, h1, h2]
  cases res.keepalive <;> simp [expectedResponse, crlf]

/-- Witness of C2: status 201 with keep-alive and the body `hi`. -/
theorem C2_writeTo_emits_layout_witness :
    ({ Status := 201, keepalive := true, buf := "hi".toList } : Response).writeTo conn0
        "Sun, 01 Nov 2026 10:00:00 GMT".toList =
      ({ out := ("1.1 201 Created\r\nDate: Sun, 01 Nov 2026 10:00:00 GMT\r\n" ++
          "Connection: keep-alive\r\nContent-Length: 2\r\n\r\nhi").toList, room := none },
        { Status := 201, keepalive := true, buf := [] }, none) :=
  C2_writeTo_emits_layout { Status := 201, keepalive := true, buf := "hi".toList } conn0
    "Sun, 01 Nov 2026 10:00:00 GMT".toList "201".toList "Created".toList (by decide) rfl


/-- Claim C3: for a status that is none of 200, 201, 202, 203, 204, whatever the body, the
keep-alive flag and the writer, `writeTo` returns an error and leaves the connection as it
was (zero bytes written); and when the handler leaves such a status on the first request of
a stream, `serve` returns after that cycle with nothing written (no 400 either), the rest of
the stream unread, whether or not the request asked for keep-alive. -/
theorem C3_unsupported_status_sends_nothing (status : Int)
    (hst : status ≠ 200 ∧ status ≠ 201 ∧ status ≠ 202 ∧ status ≠ 203 ∧ status ≠ 204) :
    (∀ (res : Response) (w : Writer) (now : Bytes), res.Status = status →
      res.writeTo w now = (w, res, some (Err.unsupported status))) ∧
    (∀ {σ : Type} (handler : Handler σ) (clock : Nat → Bytes) (s : σ) (m u v : Bytes)
      (hs : List Bytes) (rest : Bytes) (w : Writer),
      Token m → Token u → Token v → HeaderLines hs →
      (handler s (fresh { Method := m, URI := u, Headers := hs.flatten, Body := none })
        { Method := m, URI := u, Headers := hs.flatten, Body := none }).2.Status = status →
      serve handler clock s (ofBytes (wireRequest m u v hs ++ rest)) w =
        some { hstate := (handler s
                (fresh { Method := m, URI := u, Headers := hs.flatten, Body := none })
                { Method := m, URI := u, Headers := hs.flatten, Body := none }).1,
               buf := ofBytes rest, netConn := w,
               calls := [(fresh { Method := m, URI := u, Headers := hs.flatten, Body := none },
                 { Method := m, URI := u, Headers := hs.flatten, Body := none })],
               cycles := 1 }) := by
  have key : ∀ (res : Response) (w : Writer) (now : Bytes), res.Status = status →
      res.writeTo w now = (w, res, some (Err.unsupported status)) := by
    intro res w now h
    rw [writeTo_unsupported res w now (by rw [h]; exact statusText_eq_nil status hst), h]
  refine ⟨key, ?_⟩
  intro σ handler clock s m u v hs rest w hm hu hv hh hstat
  rw [serve_wellformed handler clock s m u v hs rest w hm hu hv hh]
  simp only [key _ w (clock 0) hstat, Option.isSome_some, if_true]

/-- Witness of C3: the handler sets status 999 on a keep-alive request that is followed by
a second request. -/
theorem C3_unsupported_status_sends_nothing_witness :
    serve (fun (s : Unit) (res : Response) (_ : Request) => (s, { res with Status := 999 }))
        (fun _ => "now".toList) ()
        (ofBytes (wireRequest "GET".toList "/".toList "HTTP/1.1".toList
          ["Connection: keep-alive".toList] ++ "GET /next HTTP/1.1\r\n\r\n".toList)) conn0 =
      some { hstate := (), buf := ofBytes "GET /next HTTP/1.1\r\n\r\n".toList, netConn := conn0,
             calls := [(Response.mk 200 true [],
               Request.mk "GET".toList "/".toList "Connection: keep-alive".toList none)],
             cycles := 1 } :=
  (C3_unsupported_status_sends_nothing 999 (by decide)).2
    (fun (s : Unit) (res : Response) (_ : Request) => (s, { res with Status := 999 }))
    (fun _ => "now".toList) () "GET".toList "/".toList "HTTP/1.1".toList
    ["Connection: keep-alive".toList] "GET /next HTTP/1.1\r\n\r\n".toList conn0
    (by decide) (by decide) (by decide) (by decide) rfl

/-- Claim C4 as stated fails: the line `GET<TAB>/<TAB>HTTP/1.1` consists of exactly three
whitespace-delimited tokens, yet `parseRequestLine` rejects it and `readRequest` fails on a
stream that starts with it. -/
theorem C4_whitespace_tokens_counterexample :
    whitespaceTokens "GET\t/\tHTTP/1.1".toList [] =
      ["GET".toList, "/".toList, "HTTP/1.1".toList] ∧
    parseRequestLine "GET\t/\tHTTP/1.1".toList = ([], [], false) ∧
    readRequest (ofBytes "GET\t/\tHTTP/1.1\r\n\r\n".toList) =
      some (Except.error (Err.malformed "GET\t/\tHTTP/1.1".toList), ofBytes "\r\n".toList) := by
  decide

/-- Claim C4, amended: for every request line made of three tokens separated by single
spaces, `parseRequestLine` succeeds with the method equal to the first token and the URI
equal to the second; and `readRequest` on a stream that starts with that line, its header
lines and the blank line returns a request with exactly that method and URI. -/
theorem C4_single_space_tokens (m u v : Bytes) (hm : ' ' ∉ m) (hu : ' ' ∉ u) (hv : ' ' ∉ v) :
    parseRequestLine (m ++ " ".toList ++ u ++ " ".toList ++ v) = (m, u, true) ∧
    ('\n' ∉ m ++ " ".toList ++ u ++ " ".toList ++ v →
      ∀ (hs : List Bytes) (rest : Reader), HeaderLines hs →
        readRequest (ofBytes ((m ++ " ".toList ++ u ++ " ".toList ++ v) ++ "\r\n".toList
            ++ headerBlock hs ++ "\r\n".toList) ++ rest) =
          some (Except.ok { Method := m, URI := u, Headers := hs.flatten, Body := none },
            rest)) := by
  have e : m ++ " ".toList ++ u ++ " ".toList ++ v = requestLine m u v := by
    simp [requestLine]
  rw [e]
  have hp := parseRequestLine_requestLine m u v hm hu hv
  refine ⟨hp, ?_⟩
  intro h0 hs rest hh
  exact readRequest_wellformed (requestLine m u v) m u hs rest h0 hp hh

/-- Witness of C4: the request line `POST /a?b=1 HTTP/1.0` with one header line. -/
theorem C4_single_space_tokens_witness :
    parseRequestLine "POST /a?b=1 HTTP/1.0".toList = ("POST".toList, "/a?b=1".toList, true) ∧
    readRequest (ofBytes "POST /a?b=1 HTTP/1.0\r\nHost: x\r\n\r\nbody".toList) =
      some (Except.ok (Request.mk "POST".toList "/a?b=1".toList "Host: x".toList none),
        ofBytes "body".toList) :=
  ⟨(C4_single_space_tokens "POST".toList "/a?b=1".toList "HTTP/1.0".toList
      (by decide) (by decide) (by decide)).1,
   (C4_single_space_tokens "POST".toList "/a?b=1".toList "HTTP/1.0".toList
      (by decide) (by decide) (by decide)).2 (by decide) ["Host: x".toList]
      (ofBytes "body".toList) (by decide)⟩


/-- Claim C5: `parseRequestLine ln` reports ok if and only if splitting `ln` on the space
character yields exactly three tokens, that is if and only if `ln` holds exactly two spaces;
when ok, the method is the text before the first space and the URI the text between the
first and the second space; when not ok, method and URI are empty and `readRequest` on a
stream whose first line is `ln` returns an error and no request. -/
theorem C5_parseRequestLine_ok_iff_three_tokens (ln : Bytes) :
    ((parseRequestLine ln).2.2 = true ↔ (Split ln ' ').length = 3) ∧
    ((Split ln ' ').length = 3 ↔ ln.count ' ' = 2) ∧
    ((parseRequestLine ln).2.2 = true →
      ∃ v, ln = (parseRequestLine ln).1 ++ " ".toList ++ (parseRequestLine ln).2.1
          ++ " ".toList ++ v ∧
        ' ' ∉ (parseRequestLine ln).1 ∧ ' ' ∉ (parseRequestLine ln).2.1 ∧ ' ' ∉ v) ∧
    ((parseRequestLine ln).2.2 = false →
      (parseRequestLine ln).1 = [] ∧ (parseRequestLine ln).2.1 = [] ∧
      ('\n' ∉ ln → ∀ rest : Reader,
        readRequest (ofBytes (ln ++ "\r\n".toList) ++ rest) =
          some (Except.error (Err.malformed ln), rest))) := by
  refine ⟨parseRequestLine_ok_iff ln, ?_, ?_, ?_⟩
  · rw [length_Split]; omega
  · intro hok
    obtain ⟨hmem, hjoin⟩ := Split_spec ln ' '
    unfold parseRequestLine at hok ⊢
    split at hok
    · rename_i a b c e
      rw [e] at hmem hjoin
      refine ⟨c, ?_, hmem a (by simp), hmem b (by simp), hmem c (by simp)⟩
      simpa [List.intercalate, List.intersperse] using hjoin
    · simp at hok
  · intro hno
    refine ⟨?_, ?_, ?_⟩
    · unfold parseRequestLine at hno ⊢
      split
      · rename_i e; rw [e] at hno; simp at hno
      · rfl
    · unfold parseRequestLine at hno ⊢
      split
      · rename_i e; rw [e] at hno; simp at hno
      · rfl
    · intro h0 rest
      exact readRequest_malformed ln rest h0 hno

/-- Witness of C5: the line `GET /` (two tokens) is rejected and produces no request; the
line `GET / HTTP/1.1` is accepted. -/
theorem C5_parseRequestLine_ok_iff_three_tokens_witness :
    (parseRequestLine "GET /".toList).2.2 = false ∧
    readRequest (ofBytes ("GET /".toList ++ "\r\n".toList) ++ ofBytes "\r\n".toList) =
      some (Except.error (Err.malformed "GET /".toList), ofBytes "\r\n".toList) ∧
    ∃ v, "GET / HTTP/1.1".toList = (parseRequestLine "GET / HTTP/1.1".toList).1 ++ " ".toList
        ++ (parseRequestLine "GET / HTTP/1.1".toList).2.1 ++ " ".toList ++ v ∧
      ' ' ∉ (parseRequestLine "GET / HTTP/1.1".toList).1 ∧
      ' ' ∉ (parseRequestLine "GET / HTTP/1.1".toList).2.1 ∧ ' ' ∉ v :=
  ⟨by decide,
   ((C5_parseRequestLine_ok_iff_three_tokens "GET /".toList).2.2.2 (by decide)).2.2
     (by decide) (ofBytes "\r\n".toList),
   (C5_parseRequestLine_ok_iff_three_tokens "GET / HTTP/1.1".toList).2.2.1 (by decide)⟩

/-- Claim C6: for every connection input whose request line does not have exactly three
tokens, whatever follows that line in the stream, `serve` writes exactly the bytes
`HTTP/1.1 400 Bad Request`, CRLF, `Connection: close`, CRLF, CRLF and nothing else, then
returns (the connection is closed), and the handler is never invoked. -/
theorem C6_bad_request_line_gets_400 {σ : Type} (handler : Handler σ) (clock : Nat → Bytes)
    (s : σ) (ln rest : Bytes) (h0 : '\n' ∉ ln) (htok : (Split ln ' ').length ≠ 3) :
    serve handler clock s (ofBytes (ln ++ "\r\n".toList ++ rest)) conn0 =
      some { hstate := s, buf := ofBytes rest,
             netConn := { out := "HTTP/1.1 400 Bad Request\r\nConnection: close\r\n\r\n".toList,
                          room := none },
             calls := [], cycles := 0 } := by
  have hno : (parseRequestLine ln).2.2 = false := by
    cases h : (parseRequestLine ln).2.2 with
    | false => rfl
    | true => exact absurd ((parseRequestLine_ok_iff ln).1 h) htok
  have hr := readRequest_malformed ln (ofBytes rest) h0 hno
  rw [serve, serveLoop_error handler clock _ _ (Err.malformed ln) (ofBytes rest)]
  · rfl
  · rw [← hr, ofBytes_append]; rfl

/-- Witness of C6: the input `NOTAREQUEST`, CRLF, CRLF of scenario C. -/
theorem C6_bad_request_line_gets_400_witness :
    serve (fun (s : Unit) (res : Response) (_ : Request) => (s, res)) (fun _ => "now".toList)
        () (ofBytes ("NOTAREQUEST".toList ++ "\r\n".toList ++ "\r\n".toList)) conn0 =
      some { hstate := (), buf := ofBytes "\r\n".toList,
             netConn := { out := "HTTP/1.1 400 Bad Request\r\nConnection: close\r\n\r\n".toList,
                          room := none },
             calls := [], cycles := 0 } :=
  C6_bad_request_line_gets_400 (fun (s : Unit) (res : Response) (_ : Request) => (s, res))
    (fun _ => "now".toList) () "NOTAREQUEST".toList "\r\n".toList (by decide) (by decide)


/-- Claim C7: for every connection input that ends before a complete request has been read
(no line feed at all: the empty stream of a cleanly closed connection, or a request line
without its terminator; a header block that the stream ends without the blank line; in
general every input in which no line feed is followed by CRLF, so that no blank line ever
closes a header block), `serve` writes exactly the fixed 400 bytes once, does not invoke the
handler and returns. -/
theorem C7_truncated_input_gets_400 {σ : Type} (handler : Handler σ) (clock : Nat → Bytes)
    (s : σ) :
    (∀ inp : Bytes, '\n' ∉ inp →
      serve handler clock s (ofBytes inp) conn0 =
        some { hstate := s, buf := [],
               netConn := { out := "HTTP/1.1 400 Bad Request\r\nConnection: close\r\n\r\n".toList,
                            room := none },
               calls := [], cycles := 0 }) ∧
    (∀ (ln0 : Bytes) (hs : List Bytes) (tl : Bytes),
      '\n' ∉ ln0 → HeaderLines hs → '\n' ∉ tl →
      ∃ buf1, serve handler clock s
          (ofBytes (ln0 ++ "\r\n".toList ++ headerBlock hs ++ tl)) conn0 =
        some { hstate := s, buf := buf1,
               netConn := { out := "HTTP/1.1 400 Bad Request\r\nConnection: close\r\n\r\n".toList,
                            room := none },
               calls := [], cycles := 0 }) ∧
    (∀ inp : Bytes, ¬ "\n\r\n".toList <:+: inp →
      ∃ buf1, serve handler clock s (ofBytes inp) conn0 =
        some { hstate := s, buf := buf1,
               netConn := { out := "HTTP/1.1 400 Bad Request\r\nConnection: close\r\n\r\n".toList,
                            room := none },
               calls := [], cycles := 0 }) := by
  refine ⟨?_, ?_, ?_⟩
  · intro inp h
    rw [serve, serveLoop_error handler clock _ _ Err.eof [] (readRequest_eof inp h)]
    rfl
  · intro ln0 hs tl h0 hh htl
    obtain ⟨err, buf1, hr⟩ := readRequest_open ln0 hs tl h0 hh htl
    refine ⟨buf1, ?_⟩
    rw [serve, serveLoop_error handler clock _ _ err buf1 hr]
    rfl
  · intro inp h
    obtain ⟨err, buf1, hr⟩ := readRequest_unclosed inp h
    refine ⟨buf1, ?_⟩
    rw [serve, serveLoop_error handler clock _ _ err buf1 hr]
    rfl

/-- Witness of C7: the empty stream, a request whose header block is cut short, and a
request whose lines end in bare line feeds. -/
theorem C7_truncated_input_gets_400_witness :
    serve (fun (s : Unit) (res : Response) (_ : Request) => (s, res)) (fun _ => "now".toList)
        () (ofBytes []) conn0 =
      some { hstate := (), buf := [],
             netConn := { out := "HTTP/1.1 400 Bad Request\r\nConnection: close\r\n\r\n".toList,
                          room := none },
             calls := [], cycles := 0 } ∧
    (∃ buf1, serve (fun (s : Unit) (res : Response) (_ : Request) => (s, res))
        (fun _ => "now".toList) ()
        (ofBytes ("GET / HTTP/1.1".toList ++ "\r\n".toList ++ headerBlock ["Host: x".toList]
          ++ "Accept".toList)) conn0 =
      some { hstate := (), buf := buf1,
             netConn := { out := "HTTP/1.1 400 Bad Request\r\nConnection: close\r\n\r\n".toList,
                          room := none },
             calls := [], cycles := 0 }) ∧
    (∃ buf1, serve (fun (s : Unit) (res : Response) (_ : Request) => (s, res))
        (fun _ => "now".toList) () (ofBytes "GET / HTTP/1.1\nHost: x\n\n".toList) conn0 =
      some { hstate := (), buf := buf1,
             netConn := { out := "HTTP/1.1 400 Bad Request\r\nConnection: close\r\n\r\n".toList,
                          room := none },
             calls := [], cycles := 0 }) :=
  ⟨(C7_truncated_input_gets_400 (fun (s : Unit) (res : Response) (_ : Request) => (s, res))
      (fun _ => "now".toList) ()).1 [] (by decide),
   (C7_truncated_input_gets_400 (fun (s : Unit) (res : Response) (_ : Request) => (s, res))
      (fun _ => "now".toList) ()).2.1 "GET / HTTP/1.1".toList ["Host: x".toList]
      "Accept".toList (by decide) (by decide) (by decide),
   (C7_truncated_input_gets_400 (fun (s : Unit) (res : Response) (_ : Request) => (s, res))
      (fun _ => "now".toList) ()).2.2 "GET / HTTP/1.1\nHost: x\n\n".toList (by decide)⟩

/-- Claim C8: `isKeepalive` returns true if and only if the accumulated header bytes contain
the exact byte sequence `keep-alive` somewhere; so `Keep-Alive` alone does not enable it,
while a header name that merely contains the sequence does; and in every run of `serve`
each response handed to the handler carries a keep-alive flag equal to `isKeepalive` of
the request handed over with it. -/
theorem C8_keepalive_iff_substring :
    (∀ req : Request, req.isKeepalive = true ↔
      ∃ pre post : Bytes, req.Headers = pre ++ "keep-alive".toList ++ post) ∧
    (Request.mk "GET".toList "/".toList "Connection: Keep-Alive".toList none).isKeepalive
      = false ∧
    (Request.mk "GET".toList "/".toList "X-no-keep-alive-please: 0".toList none).isKeepalive
      = true ∧
    (∀ {σ : Type} (handler : Handler σ) (clock : Nat → Bytes) (s : σ) (buf : Reader)
      (w : Writer), ∃ st, serve handler clock s buf w = some st ∧
        ∀ c ∈ st.calls, c.1.keepalive = c.2.isKeepalive) := by
  refine ⟨?_, by decide, by decide, ?_⟩
  · intro req
    have h : req.isKeepalive = Contains req.Headers keepalive := by
      unfold Request.isKeepalive; cases Contains req.Headers keepalive <;> rfl
    rw [h, Contains_iff]
    constructor
    · rintro ⟨pre, post, e⟩; exact ⟨pre, post, e.symm⟩
    · rintro ⟨pre, post, e⟩; exact ⟨pre, post, e.symm⟩
  · intro σ handler clock s buf w
    exact serveLoop_total handler clock (fun c => c.1.keepalive = c.2.isKeepalive)
      (fun _ => rfl) _ _ (Nat.lt_succ_self _) (by simp)


/-- Claim C9: on a connection input made of two well-formed requests back to back, the
first with `keep-alive` in its headers, and a handler that leaves a supported status (and
the keep-alive flag as it received it), `serve` invokes the handler on the first request,
writes a response that includes the header `Connection: keep-alive`, then reads the second
request from the same stream and invokes the handler on it: the output is the first
response immediately followed by the second (after which, the stream being at its end, the
fixed 400 bytes follow when the second request asked for keep-alive as well). -/
theorem C9_keepalive_serves_second_request {σ : Type} (handler : Handler σ)
    (clock : Nat → Bytes) (s s1 s2 : σ) (m1 u1 v1 m2 u2 v2 : Bytes) (hs1 hs2 : List Bytes)
    (req1 req2 : Request) (res1 res2 : Response) (code1 reason1 code2 reason2 : Bytes)
    (hm1 : Token m1) (hu1 : Token u1) (hv1 : Token v1) (hh1 : HeaderLines hs1)
    (hm2 : Token m2) (hu2 : Token u2) (hv2 : Token v2) (hh2 : HeaderLines hs2)
    (hka : ∃ pre post : Bytes, hs1.flatten = pre ++ "keep-alive".toList ++ post)
    (hreq1 : req1 = { Method := m1, URI := u1, Headers := hs1.flatten, Body := none })
    (hreq2 : req2 = { Method := m2, URI := u2, Headers := hs2.flatten, Body := none })
    (hcall1 : handler s { Status := 200, keepalive := true, buf := [] } req1 = (s1, res1))
    (hcall2 : handler s1 { Status := 200, keepalive := req2.isKeepalive, buf := [] } req2
      = (s2, res2))
    (hst1 : (res1.Status, code1, reason1) ∈ supported)
    (hst2 : (res2.Status, code2, reason2) ∈ supported)
    (hflag1 : res1.keepalive = true) (hflag2 : res2.keepalive = req2.isKeepalive) :
    serve handler clock s (ofBytes (wireRequest m1 u1 v1 hs1 ++ wireRequest m2 u2 v2 hs2))
        conn0 =
      some { hstate := s2, buf := [],
             netConn :=
              { out := expectedResponse "1.1".toList code1 reason1 (clock 0) true res1.buf
                  ++ expectedResponse "1.1".toList code2 reason2 (clock 1) req2.isKeepalive
                      res2.buf
                  ++ (if req2.isKeepalive then
                        "HTTP/1.1 400 Bad Request\r\nConnection: close\r\n\r\n".toList
                      else []),
                room := none },
             calls := [({ Status := 200, keepalive := true, buf := [] }, req1),
                       ({ Status := 200, keepalive := req2.isKeepalive, buf := [] }, req2)],
             cycles := 2 } := by
  have hk1 : req1.isKeepalive = true := by
    have h : req1.isKeepalive = Contains req1.Headers keepalive := by
      unfold Request.isKeepalive; cases Contains req1.Headers keepalive <;> rfl
    rw [h, Contains_iff, hreq1]
    obtain ⟨pre, post, e⟩ := hka
    exact ⟨pre, post, e.symm⟩
  have hf1 : fresh req1 = { Status := 200, keepalive := true, buf := [] } := by
    simp [fresh, hk1]
  have hf2 : fresh req2 = { Status := 200, keepalive := req2.isKeepalive, buf := [] } := rfl
  obtain ⟨c1, t1, r1⟩ := supported_spec res1.Status code1 reason1 hst1
  obtain ⟨c2, t2, r2⟩ := supported_spec res2.Status code2 reason2 hst2
  have hw1 := writeTo_supported res1 conn0 (clock 0) (statusText_ne_nil _ _ _ hst1) rfl
  rw [c1, t1, hflag1] at hw1
  obtain ⟨k, hk⟩ : ∃ k, (ofBytes (wireRequest m1 u1 v1 hs1 ++ wireRequest m2 u2 v2 hs2)).length
      = k + 2 := by
    have := two_le_length_wireRequest m1 u1 v1 hs1
    refine ⟨(ofBytes (wireRequest m1 u1 v1 hs1 ++ wireRequest m2 u2 v2 hs2)).length - 2, ?_⟩
    simp only [length_ofBytes, List.length_append]
    omega
  rw [serve_wellformed handler clock s m1 u1 v1 hs1 _ conn0 hm1 hu1 hv1 hh1, hk]
  simp only [← hreq1, hf1, hcall1, hw1, Option.isSome_none, hflag1]
  rw [serveLoop_wellformed handler clock (k + 1) _ m2 u2 v2 hs2 [] (by simp) hm2 hu2 hv2 hh2]
  simp only [← hreq2, hf2, hcall2]
  have hw2 := writeTo_supported res2
    { out := conn0.out ++ expectedResponse "1.1".toList code1 reason1 (clock 0) true res1.buf,
      room := none } (clock 1) (statusText_ne_nil _ _ _ hst2) rfl
  rw [c2, t2, hflag2] at hw2
  simp only [hw2, Option.isSome_none, hflag2]
  cases hk2 : req2.isKeepalive with
  | false => simp [conn0, ofBytes]
  | true =>
    have he : readRequest (ofBytes []) = some (Except.error Err.eof, []) :=
      readRequest_eof [] (by simp)
    simp only [Bool.not_true, Bool.false_eq_true, if_false, if_true]
    rw [serveLoop_error handler clock k _ Err.eof [] he]
    simp [conn0, Writer.Write, bad]

/-- Witness of C9: scenario B followed by a second request, with a handler that answers
every request with the body `ok`. -/
theorem C9_keepalive_serves_second_request_witness :
    serve (fun (s : Unit) (res : Response) (_ : Request) => (s, { res with buf := "ok".toList }))
        (fun _ => "now".toList) ()
        (ofBytes (wireRequest "GET".toList "/".toList "HTTP/1.1".toList
            ["Connection: keep-alive".toList]
          ++ wireRequest "GET".toList "/b".toList "HTTP/1.1".toList [])) conn0 =
      some { hstate := (), buf := [],
             netConn :=
              { out := ("1.1 200 OK\r\nDate: now\r\nConnection: keep-alive\r\n" ++
                  "Content-Length: 2\r\n\r\nok" ++
                  "1.1 200 OK\r\nDate: now\r\nContent-Length: 2\r\n\r\nok").toList,
                room := none },
             calls := [(Response.mk 200 true [],
                Request.mk "GET".toList "/".toList "Connection: keep-alive".toList none),
               (Response.mk 200 false [], Request.mk "GET".toList "/b".toList [] none)],
             cycles := 2 } :=
  C9_keepalive_serves_second_request
    (fun (s : Unit) (res : Response) (_ : Request) => (s, { res with buf := "ok".toList }))
    (fun _ => "now".toList) () () () "GET".toList "/".toList "HTTP/1.1".toList
    "GET".toList "/b".toList "HTTP/1.1".toList ["Connection: keep-alive".toList] []
    (Request.mk "GET".toList "/".toList "Connection: keep-alive".toList none)
    (Request.mk "GET".toList "/b".toList [] none)
    (Response.mk 200 true "ok".toList) (Response.mk 200 false "ok".toList)
    "200".toList "OK".toList "200".toList "OK".toList
    (by decide) (by decide) (by decide) (by decide) (by decide) (by decide) (by decide)
    (by decide) ⟨"Connection: ".toList, [], by decide⟩ rfl rfl rfl rfl (by decide) (by decide)
    rfl rfl

/-- Claim C10: for a well-formed request whose headers do not contain `keep-alive` and a
handler that leaves the status at 200 and writes no body, the whole connection output is
exactly one response: the status line for 200, a Date header, `Content-Length: 0`, a blank
line and no body, with no `Connection: keep-alive` header; `serve` then returns (closing
the connection) with whatever follows in the stream unread, the handler invoked once, and
nothing more written (no 400). -/
theorem C10_plain_request_one_response {σ : Type} (handler : Handler σ)
    (clock : Nat → Bytes) (s s1 : σ) (m u v : Bytes) (hs : List Bytes) (rest : Bytes)
    (req : Request)
    (hm : Token m) (hu : Token u) (hv : Token v) (hh : HeaderLines hs)
    (hka : ¬ ∃ pre post : Bytes, hs.flatten = pre ++ "keep-alive".toList ++ post)
    (hreq : req = { Method := m, URI := u, Headers := hs.flatten, Body := none })
    (hcall : handler s { Status := 200, keepalive := false, buf := [] } req =
      (s1, { Status := 200, keepalive := false, buf := [] })) :
    serve handler clock s (ofBytes (wireRequest m u v hs ++ rest)) conn0 =
      some { hstate := s1, buf := ofBytes rest,
             netConn :=
              { out := "1.1 200 OK\r\n".toList ++ ("Date: ".toList ++ clock 0 ++ "\r\n".toList)
                  ++ "Content-Length: 0\r\n".toList ++ "\r\n".toList,
                room := none },
             calls := [({ Status := 200, keepalive := false, buf := [] }, req)],
             cycles := 1 } := by
  have hk : req.isKeepalive = false := by
    have h : req.isKeepalive = Contains req.Headers keepalive := by
      unfold Request.isKeepalive; cases Contains req.Headers keepalive <;> rfl
    rw [h, hreq]
    cases hc : Contains hs.flatten keepalive with
    | false => rfl
    | true =>
      exfalso
      obtain ⟨pre, post, e⟩ := (Contains_iff _ _).1 hc
      exact hka ⟨pre, post, e.symm⟩
  have hf : fresh req = { Status := 200, keepalive := false, buf := [] } := by
    simp [fresh, hk]
  have hw := writeTo_supported { Status := 200, keepalive := false, buf := [] } conn0 (clock 0)
    (by decide) rfl
  rw [serve_wellformed handler clock s m u v hs rest conn0 hm hu hv hh]
  simp only [← hreq, hf, hcall, hw, Option.isSome_none]
  have d200 : fmtInt 200 = ['2', '0', '0'] := by decide
  have d0 : Nat.toDigits 10 0 = ['0'] := by decide
  simp [conn0, expectedResponse, statusText, crlf, d200, d0]

/-- Witness of C10: scenario A, the request `GET / HTTP/1.1` with no header, followed by
bytes that are never read. -/
theorem C10_plain_request_one_response_witness :
    serve (fun (s : Unit) (res : Response) (_ : Request) => (s, res)) (fun _ => "now".toList)
        () (ofBytes (wireRequest "GET".toList "/".toList "HTTP/1.1".toList [] ++ "junk".toList))
        conn0 =
      some { hstate := (), buf := ofBytes "junk".toList,
             netConn :=
              { out := "1.1 200 OK\r\nDate: now\r\nContent-Length: 0\r\n\r\n".toList,
                room := none },
             calls := [(Response.mk 200 false [], Request.mk "GET".toList "/".toList [] none)],
             cycles := 1 } :=
  C10_plain_request_one_response (fun (s : Unit) (res : Response) (_ : Request) => (s, res))
    (fun _ => "now".toList) () () "GET".toList "/".toList "HTTP/1.1".toList [] "junk".toList
    (Request.mk "GET".toList "/".toList [] none) (by decide) (by decide) (by decide)
    (by decide) (by rintro ⟨pre, post, e⟩; simp at e) rfl rfl

/-! ## Further properties of the reader -/

/-- The header loop leaves the `Body` of the request as it found it. -/
theorem readHeaders_Body (fuel : Nat) (buf buf1 : Reader) (req r : Request)
    (h : readHeaders fuel buf req = some (Except.ok r, buf1)) : r.Body = req.Body := by
  induction fuel generalizing buf req with
  | zero => simp [readHeaders] at h
  | succ n ih =>
    rw [readHeaders] at h
    rcases e : readHTTPLine buf with ⟨⟨ln, err⟩, b⟩
    rw [e] at h
    cases err with
    | some err => simp at h
    | none =>
      by_cases hl : ln.length = 0
      · simp only [hl, if_true, Option.some.injEq, Prod.mk.injEq, Except.ok.injEq] at h
        rw [← h.1]
      · simp only [hl, if_false] at h
        exact ih b { req with Headers := req.Headers ++ ln } h

/-- A request returned by `readRequest` has a nil `Body`. -/
theorem readRequest_Body (buf buf1 : Reader) (r : Request)
    (h : readRequest buf = some (Except.ok r, buf1)) : r.Body = none := by
  unfold readRequest at h
  rcases e : readHTTPLine buf with ⟨⟨ln, err⟩, b⟩
  rw [e] at h
  cases err with
  | some err => exact readHeaders_Body _ _ _ _ _ h
  | none =>
    simp only at h
    rcases e2 : parseRequestLine ln with ⟨m, u, ok⟩
    rw [e2] at h
    cases ok with
    | false => simp at h
    | true => exact readHeaders_Body _ _ _ _ _ h

/-- A reader that holds no line feed makes `ReadString` fail, with whatever error comes
first. -/
theorem ReadString_no_lf (buf : Reader) (h : Ev.byte '\n' ∉ buf) :
    ∃ err, (ReadString buf '\n').1.2 = some err := by
  induction buf with
  | nil => exact ⟨_, rfl⟩
  | cons e r ih =>
    cases e with
    | fail => exact ⟨_, rfl⟩
    | byte c =>
      have hc : c ≠ '\n' := fun e => h (by simp [e])
      have hr : Ev.byte '\n' ∉ r := fun e => h (by simp [e])
      rw [ReadString, if_neg hc]
      exact ih hr

/-- More fuel does not change what the header loop returns. -/
theorem readHeaders_mono (n k : Nat) (buf : Reader) (req : Request)
    (v : Except Err Request × Reader) (h : readHeaders n buf req = some v) :
    readHeaders (n + k) buf req = some v := by
  induction n generalizing buf req with
  | zero => simp [readHeaders] at h
  | succ n ih =>
    rw [Nat.add_right_comm, readHeaders]
    rw [readHeaders] at h
    rcases e : readHTTPLine buf with ⟨⟨ln, err⟩, b⟩
    rw [e] at h
    cases err with
    | some err => exact h
    | none =>
      by_cases hl : ln.length = 0
      · simp only [hl, if_true] at h ⊢
        exact h
      · simp only [hl, if_false] at h ⊢
        exact ih b _ h

/-- Whatever the header loop returns with some fuel, it returns with the fuel that
`readRequest` gives it. -/
theorem readHeaders_fuel (n : Nat) (buf : Reader) (req : Request)
    (v : Except Err Request × Reader) (h : readHeaders n buf req = some v) :
    readHeaders (buf.length + 1) buf req = some v := by
  obtain ⟨v1, hv1, _, _⟩ := readHeaders_total (buf.length + 1) buf req (Nat.lt_succ_self _)
  by_cases hn : n ≤ buf.length + 1
  · obtain ⟨k, hk⟩ : ∃ k, buf.length + 1 = n + k := ⟨buf.length + 1 - n, by omega⟩
    rw [hk]
    exact readHeaders_mono n k buf req v h
  · obtain ⟨k, hk⟩ : ∃ k, n = buf.length + 1 + k := ⟨n - (buf.length + 1), by omega⟩
    have h2 := readHeaders_mono (buf.length + 1) k buf req v1 hv1
    rw [← hk, h] at h2
    rw [hv1, h2]

/-- The header loop steps over a block of well-formed header lines. -/
theorem readHeaders_skipBlock (hs : List Bytes) (r : Reader) (req : Request) (n : Nat)
    (hh : HeaderLines hs) :
    readHeaders (hs.length + n) (ofBytes (headerBlock hs) ++ r) req =
      readHeaders n r { req with Headers := req.Headers ++ hs.flatten } := by
  induction hs generalizing req with
  | nil => simp [headerBlock, ofBytes]
  | cons h t ih =>
    obtain ⟨hne, hnl⟩ := hh h (by simp)
    have e : ofBytes (headerBlock (h :: t)) ++ r =
        ofBytes (h ++ crlf) ++ (ofBytes (headerBlock t) ++ r) := by
      rw [headerBlock_cons]; simp [ofBytes_append]
    have hl : h.length ≠ 0 := by simpa using hne
    rw [e, List.length_cons, Nat.add_right_comm, readHeaders, readHTTPLine_crlf h _ hnl]
    simp only [hl, if_false]
    rw [ih _ (fun x hx => hh x (by simp [hx]))]
    simp

/-- A line that ends in a line feed not preceded by a carriage return comes back whole. -/
theorem readHTTPLine_bare_lf (ln : Bytes) (r : Reader) (h : '\n' ∉ ln)
    (hcr : ¬ ['\r'] <:+ ln) :
    readHTTPLine (ofBytes (ln ++ ['\n']) ++ r) = ((ln ++ ['\n'], none), r) := by
  have e : ofBytes (ln ++ ['\n']) ++ r = ofBytes ln ++ Ev.byte '\n' :: r := by
    simp [ofBytes]
  have hs : ("\r\n".toList).isSuffixOf (ln ++ ['\n']) = false := by
    cases hb : ("\r\n".toList).isSuffixOf (ln ++ ['\n']) with
    | false => rfl
    | true =>
      exfalso
      rw [List.isSuffixOf_iff_suffix] at hb
      obtain ⟨x, hx⟩ := hb
      have e2 : x ++ "\r\n".toList = (x ++ ['\r']) ++ ['\n'] := by simp
      rw [e2] at hx
      exact hcr ⟨x, List.append_inj_left' hx rfl⟩
  rw [e]
  simp only [readHTTPLine, ReadString_line _ _ _ h, TrimSuffix, hs]
  rfl

/-- After a well-formed request line, `readRequest` returns what the header loop returns on
the rest of the stream. -/
theorem readRequest_of_readHeaders (m u v : Bytes) (r : Reader) (n : Nat)
    (res : Except Err Request × Reader)
    (hm : Token m) (hu : Token u) (hv : Token v)
    (h : readHeaders n r { Method := m, URI := u, Headers := [], Body := none } = some res) :
    readRequest (ofBytes (requestLine m u v ++ crlf) ++ r) = some res := by
  have h0 : '\n' ∉ requestLine m u v := by
    simp [requestLine, hm.2, hu.2, hv.2]
  rw [readRequest, readHTTPLine_crlf _ _ h0]
  simp only [parseRequestLine_requestLine m u v hm.1 hu.1 hv.1]
  exact readHeaders_fuel n r _ res h

/-! ## The claims, continued -/

/-- Claim C11 as stated fails: for the request line `GET / HTTP/1.1` followed by the header
lines `A: 1` and `B: 2` and the blank line, `readRequest` succeeds and the header blob is
`A: 1B: 2`: the two lines are not joined by a newline, and the last byte of the first is
adjacent to the first byte of the second. -/
theorem C11_newline_joined_counterexample :
    readRequest (ofBytes "GET / HTTP/1.1\r\nA: 1\r\nB: 2\r\n\r\n".toList) =
      some (Except.ok (Request.mk "GET".toList "/".toList "A: 1B: 2".toList none), []) ∧
    "A: 1B: 2".toList ≠ List.intercalate "\n".toList ["A: 1".toList, "B: 2".toList] := by
  decide

/-- Claim C11, amended: after a successful `readRequest` the header blob equals the header
lines received before the blank line, each verbatim without its line terminator, in order
of arrival, concatenated with nothing between them. -/
theorem C11_headers_concatenated (m u v : Bytes) (hs : List Bytes) (rest : Reader)
    (hm : Token m) (hu : Token u) (hv : Token v) (hh : HeaderLines hs) :
    ∃ req, readRequest (ofBytes (wireRequest m u v hs) ++ rest) = some (Except.ok req, rest) ∧
      req.Headers = hs.flatten := by
  have h0 : '\n' ∉ requestLine m u v := by
    simp [requestLine, hm.2, hu.2, hv.2]
  exact ⟨_, readRequest_wellformed (requestLine m u v) m u hs rest h0
    (parseRequestLine_requestLine m u v hm.1 hu.1 hv.1) hh, rfl⟩

/-- Witness of C11: three header lines. -/
theorem C11_headers_concatenated_witness :
    ∃ req, readRequest (ofBytes (wireRequest "GET".toList "/".toList "HTTP/1.1".toList
        ["Host: x".toList, "Accept: */*".toList, "Connection: close".toList]) ++ []) =
        some (Except.ok req, []) ∧
      req.Headers = ["Host: x".toList, "Accept: */*".toList, "Connection: close".toList].flatten :=
  C11_headers_concatenated "GET".toList "/".toList "HTTP/1.1".toList
    ["Host: x".toList, "Accept: */*".toList, "Connection: close".toList] []
    (by decide) (by decide) (by decide) (by decide)

/-- Claim C12: for every input made of a request line with three tokens, CRLF, zero or more
non-empty header lines each followed by CRLF, CRLF, and then `rest`, `readRequest` succeeds
and leaves exactly `rest` unread: the header block ends at the first empty line and no byte
after it is consumed, whatever the headers say (Content-Length, chunking); and the `Body` of
the request returned is nil here, as it is for every request `readRequest` returns. -/
theorem C12_no_body_bytes_consumed :
    (∀ (m u v : Bytes) (hs : List Bytes) (rest : Bytes),
      Token m → Token u → Token v → HeaderLines hs →
      readRequest (ofBytes (m ++ " ".toList ++ u ++ " ".toList ++ v ++ "\r\n".toList
          ++ headerBlock hs ++ "\r\n".toList ++ rest)) =
        some (Except.ok { Method := m, URI := u, Headers := hs.flatten, Body := none },
          ofBytes rest)) ∧
    (∀ (buf buf1 : Reader) (req : Request),
      readRequest buf = some (Except.ok req, buf1) → req.Body = none) := by
  refine ⟨?_, readRequest_Body⟩
  intro m u v hs rest hm hu hv hh
  have h0 : '\n' ∉ requestLine m u v := by
    simp [requestLine, hm.2, hu.2, hv.2]
  have e : m ++ " ".toList ++ u ++ " ".toList ++ v ++ "\r\n".toList ++ headerBlock hs
      ++ "\r\n".toList ++ rest = (requestLine m u v ++ crlf ++ headerBlock hs ++ crlf) ++ rest := by
    simp [requestLine, crlf]
  rw [e, ofBytes_append]
  exact readRequest_wellformed (requestLine m u v) m u hs (ofBytes rest) h0
    (parseRequestLine_requestLine m u v hm.1 hu.1 hv.1) hh

/-- Witness of C12: a POST that announces five body bytes; the five bytes stay unread. -/
theorem C12_no_body_bytes_consumed_witness :
    readRequest (ofBytes ("POST".toList ++ " ".toList ++ "/".toList ++ " ".toList
        ++ "HTTP/1.1".toList ++ "\r\n".toList ++ headerBlock ["Content-Length: 5".toList]
        ++ "\r\n".toList ++ "hello".toList)) =
      some (Except.ok (Request.mk "POST".toList "/".toList "Content-Length: 5".toList none),
        ofBytes "hello".toList) ∧
    (Request.mk "POST".toList "/".toList "Content-Length: 5".toList none).Body = none :=
  ⟨C12_no_body_bytes_consumed.1 "POST".toList "/".toList "HTTP/1.1".toList
      ["Content-Length: 5".toList] "hello".toList (by decide) (by decide) (by decide)
      (by decide),
   C12_no_body_bytes_consumed.2
      (ofBytes "POST / HTTP/1.1\r\nContent-Length: 5\r\n\r\nhello".toList)
      (ofBytes "hello".toList)
      (Request.mk "POST".toList "/".toList "Content-Length: 5".toList none) (by decide)⟩

/-- Claim C14: on a writer that accepts all bytes, the status line emitted for 200 carries
`OK`, for 201 `Created`, for 202 `Accepted`, for 203 `Non-Authoritative Information` and
for 204 `No Content`, each written as code, space, phrase immediately before the CRLF of
the first line; and serialization succeeds exactly for these five codes. -/
theorem C14_reason_phrases (res : Response) (w : Writer) (now : Bytes) (hw : w.room = none) :
    (∀ p ∈ [((200 : Int), "200 OK".toList), (201, "201 Created".toList),
        (202, "202 Accepted".toList), (203, "203 Non-Authoritative Information".toList),
        (204, "204 No Content".toList)],
      res.Status = p.1 →
      ∃ tail, (res.writeTo w now).1.out =
        w.out ++ ("1.1 ".toList ++ p.2 ++ "\r\n".toList) ++ tail) ∧
    ((res.writeTo w now).2.2 = none ↔
      res.Status = 200 ∨ res.Status = 201 ∨ res.Status = 202 ∨ res.Status = 203 ∨
        res.Status = 204) := by
  constructor
  · intro p hp hst
    have hsup : (res.Status, fmtInt res.Status, statusText res.Status) ∈ supported := by
      simp only [List.mem_cons, List.mem_singleton, List.not_mem_nil, or_false] at hp
      rcases hp with rfl | rfl | rfl | rfl | rfl <;> (simp only at hst; rw [hst]; decide)
    rw [writeTo_supported res w now (statusText_ne_nil _ _ _ hsup) hw]
    simp only [List.mem_cons, List.mem_singleton, List.not_mem_nil, or_false] at hp
    rcases hp with rfl | rfl | rfl | rfl | rfl <;>
      (simp only at hst
       rw [hst]
       refine ⟨("Date: ".toList ++ now ++ crlf)
         ++ (if res.keepalive then "Connection: keep-alive".toList ++ crlf else [])
         ++ ("Content-Length: ".toList ++ Nat.toDigits 10 res.buf.length ++ crlf)
         ++ crlf ++ res.buf, ?_⟩
       have d : fmtInt 200 = ['2', '0', '0'] ∧ fmtInt 201 = ['2', '0', '1'] ∧
           fmtInt 202 = ['2', '0', '2'] ∧ fmtInt 203 = ['2', '0', '3'] ∧
           fmtInt 204 = ['2', '0', '4'] := by decide
       simp [expectedResponse, statusText, crlf, d.1, d.2.1, d.2.2.1, d.2.2.2.1, d.2.2.2.2])
  · constructor
    · intro h
      by_contra hno
      simp only [not_or] at hno
      have hnil := statusText_eq_nil res.Status
        ⟨hno.1, hno.2.1, hno.2.2.1, hno.2.2.2.1, hno.2.2.2.2⟩
      rw [writeTo_unsupported res w now hnil] at h
      simp at h
    · intro h
      have hne : statusText res.Status ≠ [] := by
        rcases h with h | h | h | h | h <;> (rw [h]; decide)
      rw [writeTo_supported res w now hne hw]

/-- Witness of C14: status 203 on a fresh connection. -/
theorem C14_reason_phrases_witness :
    (∃ tail, (({ Status := 203, keepalive := false, buf := [] } : Response).writeTo conn0
        "now".toList).1.out =
      conn0.out ++ ("1.1 ".toList ++ "203 Non-Authoritative Information".toList
        ++ "\r\n".toList) ++ tail) ∧
    (({ Status := 205, keepalive := false, buf := [] } : Response).writeTo conn0
        "now".toList).2.2 ≠ none :=
  ⟨(C14_reason_phrases { Status := 203, keepalive := false, buf := [] } conn0 "now".toList
      rfl).1 (203, "203 Non-Authoritative Information".toList) (by decide) rfl,
   fun h => absurd ((C14_reason_phrases { Status := 205, keepalive := false, buf := [] } conn0
      "now".toList rfl).2.1 h) (by decide)⟩

/-- Claim C15, evaluated on the code: on a reader whose read fails once in the middle of
the request line and then delivers the remaining bytes, the read of the request line fails,
yet `readRequest` goes on to the header loop and returns a request whose method and URI are
empty, with no error; `serve` hands that request to the handler. -/
theorem C15_failed_request_line_read_falls_through :
    readHTTPLine (ofBytes "GET / HTT".toList ++ [Ev.fail] ++ ofBytes "P/1.1\r\n\r\n".toList) =
      (([], some Err.io), ofBytes "P/1.1\r\n\r\n".toList) ∧
    readRequest (ofBytes "GET / HTT".toList ++ [Ev.fail] ++ ofBytes "P/1.1\r\n\r\n".toList) =
      some (Except.ok (Request.mk [] [] "P/1.1".toList none), []) ∧
    (serve (fun (s : Unit) (res : Response) (_ : Request) => (s, res)) (fun _ => "now".toList)
        () (ofBytes "GET / HTT".toList ++ [Ev.fail] ++ ofBytes "P/1.1\r\n\r\n".toList)
        conn0).map (fun st => st.calls) =
      some [(Response.mk 200 false [], Request.mk [] [] "P/1.1".toList none)] := by
  decide

/-- Claim C17: for every stream whose first line feed is immediately preceded by a carriage
return, `readHTTPLine` returns exactly the bytes that precede that CRLF, without error, and
leaves the reader just after the line feed; for every stream that contains no line feed it
returns an error and the empty string. -/
theorem C17_readHTTPLine_trims_crlf :
    (∀ (ln : Bytes) (r : Reader), '\n' ∉ ln →
      readHTTPLine (ofBytes (ln ++ "\r\n".toList) ++ r) = ((ln, none), r)) ∧
    (∀ buf : Reader, Ev.byte '\n' ∉ buf →
      ∃ err, (readHTTPLine buf).1 = ([], some err)) := by
  constructor
  · intro ln r h
    exact readHTTPLine_crlf ln r h
  · intro buf h
    obtain ⟨err, he⟩ := ReadString_no_lf buf h
    unfold readHTTPLine
    split
    · exact ⟨_, rfl⟩
    · rename_i e; rw [e] at he; simp at he

/-- Witness of C17: a line that itself ends in a carriage return is trimmed once only, and
an unterminated line gives an error and the empty string. -/
theorem C17_readHTTPLine_trims_crlf_witness :
    readHTTPLine (ofBytes ("Host: x\r".toList ++ "\r\n".toList) ++ ofBytes "next".toList) =
      (("Host: x\r".toList, none), ofBytes "next".toList) ∧
    ∃ err, (readHTTPLine (ofBytes "GET / HTTP/1.1".toList)).1 = ([], some err) :=
  ⟨C17_readHTTPLine_trims_crlf.1 "Host: x\r".toList (ofBytes "next".toList) (by decide),
   C17_readHTTPLine_trims_crlf.2 (ofBytes "GET / HTTP/1.1".toList) (by decide)⟩

/-- Claim C20: a line terminated by a bare line feed (no carriage return before it) is
returned by `readHTTPLine` with its line feed retained; so in `readRequest` a line that is a
line feed alone does not end the header block: it is appended to the header blob as the
one-byte line, and reading goes on until a line that is exactly CRLF (the request is then
returned) or until the stream fails (an error is then returned). -/
theorem C20_bare_lf_is_not_blank :
    (∀ (ln : Bytes) (r : Reader), '\n' ∉ ln → ¬ "\r".toList <:+ ln →
      readHTTPLine (ofBytes (ln ++ "\n".toList) ++ r) = ((ln ++ "\n".toList, none), r)) ∧
    (∀ (m u v : Bytes) (hs1 hs2 : List Bytes) (rest : Reader),
      Token m → Token u → Token v → HeaderLines hs1 → HeaderLines hs2 →
      readRequest (ofBytes (requestLine m u v ++ "\r\n".toList ++ headerBlock hs1
          ++ "\n".toList ++ headerBlock hs2 ++ "\r\n".toList) ++ rest) =
        some (Except.ok { Method := m, URI := u,
                          Headers := hs1.flatten ++ "\n".toList ++ hs2.flatten, Body := none },
          rest)) ∧
    (∀ (m u v : Bytes) (hs1 hs2 : List Bytes) (tl : Bytes),
      Token m → Token u → Token v → HeaderLines hs1 → HeaderLines hs2 → '\n' ∉ tl →
      readRequest (ofBytes (requestLine m u v ++ "\r\n".toList ++ headerBlock hs1
          ++ "\n".toList ++ headerBlock hs2 ++ tl)) =
        some (Except.error Err.eof, [])) := by
  have hstep : ∀ (n : Nat) (r : Reader) (req : Request),
      readHeaders (n + 1) (ofBytes ['\n'] ++ r) req =
        readHeaders n r { req with Headers := req.Headers ++ ['\n'] } := by
    intro n r req
    have e := readHTTPLine_bare_lf [] r (by simp) (by simp)
    simp only [List.nil_append] at e
    rw [readHeaders, e]
    simp
  refine ⟨?_, ?_, ?_⟩
  · intro ln r h hcr
    exact readHTTPLine_bare_lf ln r h hcr
  · intro m u v hs1 hs2 rest hm hu hv hh1 hh2
    have e : ofBytes (requestLine m u v ++ "\r\n".toList ++ headerBlock hs1
        ++ "\n".toList ++ headerBlock hs2 ++ "\r\n".toList) ++ rest =
        ofBytes (requestLine m u v ++ crlf) ++ (ofBytes (headerBlock hs1) ++
          (ofBytes ['\n'] ++ (ofBytes (headerBlock hs2 ++ crlf) ++ rest))) := by
      simp [ofBytes, crlf]
    rw [e]
    apply readRequest_of_readHeaders m u v _ (hs1.length + ((hs2.length + 1) + 1)) _ hm hu hv
    rw [readHeaders_skipBlock hs1 _ _ _ hh1, hstep,
      readHeaders_block hs2 rest _ _ (Nat.lt_succ_self _) hh2]
    simp
  · intro m u v hs1 hs2 tl hm hu hv hh1 hh2 htl
    have e : ofBytes (requestLine m u v ++ "\r\n".toList ++ headerBlock hs1
        ++ "\n".toList ++ headerBlock hs2 ++ tl) =
        ofBytes (requestLine m u v ++ crlf) ++ (ofBytes (headerBlock hs1) ++
          (ofBytes ['\n'] ++ ofBytes (headerBlock hs2 ++ tl))) := by
      simp [ofBytes, crlf]
    rw [e]
    apply readRequest_of_readHeaders m u v _ (hs1.length + ((hs2.length + 1) + 1)) _ hm hu hv
    rw [readHeaders_skipBlock hs1 _ _ _ hh1, hstep,
      readHeaders_open hs2 tl _ _ (Nat.lt_succ_self _) hh2 htl]

/-- Witness of C20: a header block in which a bare line feed stands where the blank line
was meant. -/
theorem C20_bare_lf_is_not_blank_witness :
    readHTTPLine (ofBytes ("Host: x".toList ++ "\n".toList) ++ []) =
      (("Host: x".toList ++ "\n".toList, none), []) ∧
    readRequest (ofBytes (requestLine "GET".toList "/".toList "HTTP/1.1".toList
        ++ "\r\n".toList ++ headerBlock ["Host: x".toList] ++ "\n".toList
        ++ headerBlock ["Accept: */*".toList] ++ "\r\n".toList) ++ ofBytes "tail".toList) =
      some (Except.ok (Request.mk "GET".toList "/".toList
          ("Host: x".toList ++ "\n".toList ++ "Accept: */*".toList) none),
        ofBytes "tail".toList) ∧
    readRequest (ofBytes (requestLine "GET".toList "/".toList "HTTP/1.1".toList
        ++ "\r\n".toList ++ headerBlock ["Host: x".toList] ++ "\n".toList
        ++ headerBlock [] ++ [])) =
      some (Except.error Err.eof, []) :=
  ⟨C20_bare_lf_is_not_blank.1 "Host: x".toList [] (by decide) (by decide),
   C20_bare_lf_is_not_blank.2.1 "GET".toList "/".toList "HTTP/1.1".toList ["Host: x".toList]
      ["Accept: */*".toList] (ofBytes "tail".toList) (by decide) (by decide) (by decide)
      (by decide) (by decide),
   C20_bare_lf_is_not_blank.2.2 "GET".toList "/".toList "HTTP/1.1".toList ["Host: x".toList]
      [] [] (by decide) (by decide) (by decide) (by decide) (by decide) (by decide)⟩

/-! ## Termination of the connection loop -/

theorem ReadString_consumed (buf : Reader) (d : Char) :
    (ReadString buf d).2.length + (ReadString buf d).1.1.length ≤ buf.length := by
  induction buf with
  | nil => simp [ReadString]
  | cons e r ih =>
    cases e with
    | fail => simp [ReadString]
    | byte c =>
      rw [ReadString]
      split
      · simp
      · simp only [List.length_cons]; omega

theorem ReadString_ne_nil (buf : Reader) (d : Char) (h : (ReadString buf d).1.2 = none) :
    (ReadString buf d).1.1 ≠ [] := by
  cases buf with
  | nil => simp [ReadString] at h
  | cons e r =>
    cases e with
    | fail => simp [ReadString] at h
    | byte c =>
      rw [ReadString]
      split <;> simp

/-- A line that `readHTTPLine` returns empty has cost the two bytes of a CRLF. -/
theorem readHTTPLine_blank (buf buf1 : Reader) (h : readHTTPLine buf = (([], none), buf1)) :
    buf1.length + 2 ≤ buf.length := by
  have hc := ReadString_consumed buf '\n'
  have hn := ReadString_ne_nil buf '\n'
  unfold readHTTPLine at h
  rcases e : ReadString buf '\n' with ⟨⟨ln, err⟩, b⟩
  rw [e] at h hc hn
  cases err with
  | some err => simp at h
  | none =>
    simp only [Prod.mk.injEq, and_true] at h
    obtain ⟨ht, hb⟩ := h
    subst hb
    have hne : ln ≠ [] := hn rfl
    have hlen : 2 ≤ ln.length := by
      unfold TrimSuffix at ht
      split at ht
      · rename_i hs
        rw [List.isSuffixOf_iff_suffix] at hs
        obtain ⟨x, hx⟩ := hs
        rw [← hx]
        simp
      · exact absurd ht hne
    simp only at hc
    omega

/-- A request returned by the header loop has cost at least two events. -/
theorem readHeaders_consumes (fuel : Nat) (buf buf1 : Reader) (req r : Request)
    (h : readHeaders fuel buf req = some (Except.ok r, buf1)) :
    buf1.length + 2 ≤ buf.length := by
  induction fuel generalizing buf req with
  | zero => simp [readHeaders] at h
  | succ n ih =>
    rw [readHeaders] at h
    have hle := readHTTPLine_length_le buf
    have hb := readHTTPLine_blank buf
    rcases e : readHTTPLine buf with ⟨⟨ln, err⟩, b⟩
    rw [e] at h hle hb
    cases err with
    | some err => simp at h
    | none =>
      by_cases hl : ln.length = 0
      · simp only [hl, if_true, Option.some.injEq, Prod.mk.injEq, Except.ok.injEq] at h
        have hnil : ln = [] := List.length_eq_zero.1 hl
        subst hnil
        rw [← h.2]
        exact hb b rfl
      · simp only [hl, if_false] at h
        have := ih b { req with Headers := req.Headers ++ ln } h
        simp only at hle
        omega

/-- A request returned by `readRequest` has cost at least two events. -/
theorem readRequest_consumes (buf buf1 : Reader) (r : Request)
    (h : readRequest buf = some (Except.ok r, buf1)) : buf1.length + 2 ≤ buf.length := by
  unfold readRequest at h
  have hle := readHTTPLine_length_le buf
  rcases e : readHTTPLine buf with ⟨⟨ln, err⟩, b⟩
  rw [e] at h hle
  simp only at hle
  cases err with
  | some err =>
    have := readHeaders_consumes _ _ _ _ _ h
    omega
  | none =>
    simp only at h
    rcases e2 : parseRequestLine ln with ⟨m, u, ok⟩
    rw [e2] at h
    cases ok with
    | false => simp at h
    | true =>
      have := readHeaders_consumes _ _ _ _ _ h
      omega

/-- The loop returns whenever its bound exceeds the number of unread events; every cycle it
completes has cost two events and recorded one handler call. -/
theorem serveLoop_bound {σ : Type} (handler : Handler σ) (clock : Nat → Bytes) (fuel : Nat)
    (hc : Conn σ) (hfuel : hc.buf.length < fuel) :
    ∃ st, serveLoop handler clock fuel hc = some st ∧
      2 * st.cycles + st.buf.length ≤ 2 * hc.cycles + hc.buf.length ∧
      st.calls.length + hc.cycles = hc.calls.length + st.cycles := by
  induction fuel generalizing hc with
  | zero => omega
  | succ n ih =>
    obtain ⟨v, hv, hle, _⟩ := readRequest_total hc.buf
    obtain ⟨res, buf1⟩ := v
    cases res with
    | error err =>
      rw [serveLoop_error handler clock n hc err buf1 hv]
      refine ⟨_, rfl, ?_, rfl⟩
      simp only at hle ⊢
      omega
    | ok req =>
      have h2 := readRequest_consumes hc.buf buf1 req hv
      rw [serveLoop_ok handler clock n hc req buf1 hv]
      simp only
      split
      · refine ⟨_, rfl, ?_, ?_⟩
        · simp only; omega
        · simp only [List.length_append, List.length_singleton]; omega
      · split
        · refine ⟨_, rfl, ?_, ?_⟩
          · simp only; omega
          · simp only [List.length_append, List.length_singleton]; omega
        · obtain ⟨st, hst, h3, h4⟩ := ih
            { hstate := (handler hc.hstate (fresh req) req).1, buf := buf1,
              netConn := ((handler hc.hstate (fresh req) req).2.writeTo hc.netConn
                (clock hc.cycles)).1,
              calls := hc.calls ++ [(fresh req, req)], cycles := hc.cycles + 1 }
            (by simp only; omega)
          refine ⟨st, hst, ?_, ?_⟩
          · simp only at h3; omega
          · simp only [List.length_append, List.length_singleton] at h4; omega

/-- More fuel does not change what the loop returns. -/
theorem serveLoop_mono {σ : Type} (handler : Handler σ) (clock : Nat → Bytes) (n k : Nat)
    (hc st : Conn σ) (h : serveLoop handler clock n hc = some st) :
    serveLoop handler clock (n + k) hc = some st := by
  induction n generalizing hc with
  | zero => simp [serveLoop] at h
  | succ n ih =>
    rw [Nat.add_right_comm]
    obtain ⟨v, hv, _, _⟩ := readRequest_total hc.buf
    obtain ⟨res, buf1⟩ := v
    cases res with
    | error err =>
      rw [serveLoop_error handler clock n hc err buf1 hv] at h
      rw [serveLoop_error handler clock (n + k) hc err buf1 hv]
      exact h
    | ok req =>
      rw [serveLoop_ok handler clock n hc req buf1 hv] at h
      rw [serveLoop_ok handler clock (n + k) hc req buf1 hv]
      simp only at h ⊢
      split
      · rename_i hw; rw [if_pos hw] at h; exact h
      · rename_i hw
        rw [if_neg hw] at h
        split
        · rename_i hk; rw [if_pos hk] at h; exact h
        · rename_i hk
          rw [if_neg hk] at h
          exact ih _ h

/-- Whatever the loop returns with some fuel, it returns with any fuel above the number of
unread events. -/
theorem serveLoop_fuel {σ : Type} (handler : Handler σ) (clock : Nat → Bytes) (n m : Nat)
    (hc st : Conn σ) (h : serveLoop handler clock n hc = some st) (hm : hc.buf.length < m) :
    serveLoop handler clock m hc = some st := by
  obtain ⟨st1, hst1, _, _⟩ := serveLoop_bound handler clock m hc hm
  by_cases hn : n ≤ m
  · obtain ⟨k, hk⟩ : ∃ k, m = n + k := ⟨m - n, by omega⟩
    rw [hk]
    exact serveLoop_mono handler clock n k hc st h
  · obtain ⟨k, hk⟩ : ∃ k, n = m + k := ⟨n - m, by omega⟩
    have h2 := serveLoop_mono handler clock m k hc st1 hst1
    rw [← hk, h] at h2
    rw [hst1, h2]

/-- Claim C18: for every finite connection input and every handler, `serve` returns; every
successful `readRequest` consumes at least two bytes of the stream, so the number of cycles
completed is at most half the input length, with one handler call per cycle; and a larger
bound on the number of cycles gives the same result. -/
theorem C18_serve_terminates :
    (∀ (buf buf1 : Reader) (req : Request),
      readRequest buf = some (Except.ok req, buf1) → buf1.length + 2 ≤ buf.length) ∧
    (∀ {σ : Type} (handler : Handler σ) (clock : Nat → Bytes) (s : σ) (buf : Reader)
      (w : Writer),
      ∃ st, serve handler clock s buf w = some st ∧
        2 * st.cycles ≤ buf.length ∧ st.calls.length = st.cycles ∧
        ∀ k, serveLoop handler clock (buf.length + 1 + k)
          { hstate := s, buf := buf, netConn := w, calls := [], cycles := 0 } = some st) := by
  refine ⟨readRequest_consumes, ?_⟩
  intro σ handler clock s buf w
  obtain ⟨st, hst, h1, h2⟩ := serveLoop_bound handler clock (buf.length + 1)
    { hstate := s, buf := buf, netConn := w, calls := [], cycles := 0 } (Nat.lt_succ_self _)
  refine ⟨st, hst, ?_, ?_, ?_⟩
  · simp only at h1; omega
  · simp only [List.length_nil] at h2; omega
  · intro k
    exact serveLoop_mono handler clock _ k _ st hst

/-- Witness of C18: a keep-alive request costs its bytes, and the connection it arrives on
is served in at most half as many cycles as it has bytes. -/
theorem C18_serve_terminates_witness :
    ([] : Reader).length + 2 ≤
      (ofBytes "GET / HTTP/1.1\r\nConnection: keep-alive\r\n\r\n".toList).length ∧
    ∃ st, serve (fun (s : Unit) (res : Response) (_ : Request) => (s, res))
        (fun _ => "now".toList) ()
        (ofBytes "GET / HTTP/1.1\r\nConnection: keep-alive\r\n\r\n".toList) conn0 = some st ∧
      2 * st.cycles ≤ (ofBytes "GET / HTTP/1.1\r\nConnection: keep-alive\r\n\r\n".toList).length ∧
      st.calls.length = st.cycles ∧
      ∀ k, serveLoop (fun (s : Unit) (res : Response) (_ : Request) => (s, res))
        (fun _ => "now".toList)
        ((ofBytes "GET / HTTP/1.1\r\nConnection: keep-alive\r\n\r\n".toList).length + 1 + k)
        { hstate := (),
          buf := ofBytes "GET / HTTP/1.1\r\nConnection: keep-alive\r\n\r\n".toList,
          netConn := conn0, calls := [], cycles := 0 } = some st :=
  ⟨C18_serve_terminates.1
      (ofBytes "GET / HTTP/1.1\r\nConnection: keep-alive\r\n\r\n".toList) []
      (Request.mk "GET".toList "/".toList "Connection: keep-alive".toList none) (by decide),
   C18_serve_terminates.2 (fun (s : Unit) (res : Response) (_ : Request) => (s, res))
      (fun _ => "now".toList) ()
      (ofBytes "GET / HTTP/1.1\r\nConnection: keep-alive\r\n\r\n".toList) conn0⟩

/-! ## Runs of requests on one connection -/

theorem wireStream_cons (q : Wire) (qs : List Wire) :
    wireStream (q :: qs) = q.bytes ++ wireStream qs := by
  simp [wireStream]

theorem isKeepalive_iff (req : Request) :
    req.isKeepalive = true ↔ ∃ pre post : Bytes, req.Headers = pre ++ keepalive ++ post := by
  have h : req.isKeepalive = Contains req.Headers keepalive := by
    unfold Request.isKeepalive; cases Contains req.Headers keepalive <;> rfl
  rw [h, Contains_iff]
  constructor
  · rintro ⟨pre, post, e⟩; exact ⟨pre, post, e.symm⟩
  · rintro ⟨pre, post, e⟩; exact ⟨pre, post, e.symm⟩

/-- The loop on a stream of well-formed keep-alive requests, with a handler that always
leaves a supported status and the keep-alive flag: one response per request, then the 400
for the end of the stream. -/
theorem serveLoop_stream {σ : Type} (handler : Handler σ) (clock : Nat → Bytes)
    (hsup : ∀ s req, statusText (handler s (fresh req) req).2.Status ≠ [])
    (hflag : ∀ s req, (handler s (fresh req) req).2.keepalive = req.isKeepalive)
    (qs : List Wire) (hwf : ∀ q ∈ qs, q.WellFormed)
    (hka : ∀ q ∈ qs, q.request.isKeepalive = true)
    (n : Nat) (hc : Conn σ) (hn : qs.length < n) (hbuf : hc.buf = ofBytes (wireStream qs))
    (hroom : hc.netConn.room = none) :
    ∃ st, serveLoop handler clock n hc = some st ∧ st.buf = [] ∧
      st.netConn = Writer.mk (hc.netConn.out
          ++ responses handler clock hc.hstate hc.cycles (qs.map Wire.request) ++ bad) none ∧
      st.calls = hc.calls ++ qs.map (fun q => (fresh q.request, q.request)) ∧
      st.cycles = hc.cycles + qs.length := by
  induction qs generalizing n hc with
  | nil =>
    obtain ⟨k, rfl⟩ : ∃ k, n = k + 1 := ⟨n - 1, by simp at hn; omega⟩
    obtain ⟨s0, buf0, ⟨out0, room0⟩, calls0, cyc0⟩ := hc
    simp only at hbuf hroom
    subst hbuf hroom
    have he : readRequest (ofBytes (wireStream [])) = some (Except.error Err.eof, []) :=
      readRequest_eof [] (by simp)
    rw [serveLoop_error handler clock k _ Err.eof [] he]
    refine ⟨_, rfl, rfl, ?_, by simp, by simp⟩
    simp [Writer.Write, responses]
  | cons q qs ih =>
    obtain ⟨k, rfl⟩ : ∃ k, n = k + 1 := ⟨n - 1, by simp at hn; omega⟩
    obtain ⟨s0, buf0, ⟨out0, room0⟩, calls0, cyc0⟩ := hc
    simp only at hbuf hroom
    subst hbuf hroom
    obtain ⟨hm, hu, hv, hh⟩ := hwf q (by simp)
    have hk : q.request.isKeepalive = true := hka q (by simp)
    have hb : ofBytes (wireStream (q :: qs)) =
        ofBytes (wireRequest q.m q.u q.v q.hs ++ wireStream qs) := by
      rw [wireStream_cons]; rfl
    rw [serveLoop_wellformed handler clock k _ q.m q.u q.v q.hs (wireStream qs) hb hm hu hv hh]
    have hreq : ({ Method := q.m, URI := q.u, Headers := q.hs.flatten, Body := none } : Request)
        = q.request := rfl
    have hw := writeTo_supported (handler s0 (fresh q.request) q.request).2
      (Writer.mk out0 none) (clock cyc0) (hsup _ _) rfl
    have hf : (handler s0 (fresh q.request) q.request).2.keepalive = true := by
      rw [hflag]; exact hk
    simp only [hreq, hw, Option.isSome_none, hf, Bool.not_true, Bool.false_eq_true, if_false]
    obtain ⟨st, hst, h1, h2, h3, h4⟩ := ih (fun x hx => hwf x (by simp [hx]))
      (fun x hx => hka x (by simp [hx])) k
      (Conn.mk (handler s0 (fresh q.request) q.request).1 (ofBytes (wireStream qs))
        (Writer.mk (out0 ++ expectedResponse "1.1".toList
            (fmtInt (handler s0 (fresh q.request) q.request).2.Status)
            (statusText (handler s0 (fresh q.request) q.request).2.Status)
            (clock cyc0) true (handler s0 (fresh q.request) q.request).2.buf)
          none)
        (calls0 ++ [(fresh q.request, q.request)]) (cyc0 + 1))
      (by simp only [List.length_cons] at hn; omega) rfl rfl
    refine ⟨st, hst, h1, ?_, ?_, ?_⟩
    · rw [h2]
      simp [responses, hf]
    · rw [h3]; simp
    · rw [h4]; simp only [List.length_cons]; omega

/-- The loop on a writer that accepts everything: the handler is called on fresh responses
only, and the bytes written are those of `replay` on the requests handled, followed by the
400 when the loop ended on a failed read. -/
theorem serveLoop_replay {σ : Type} (handler : Handler σ) (clock : Nat → Bytes) (fuel : Nat)
    (hc : Conn σ) (hfuel : hc.buf.length < fuel) (hroom : hc.netConn.room = none) :
    ∃ st new tail, serveLoop handler clock fuel hc = some st ∧
      st.calls = hc.calls ++ new.map (fun r => (fresh r, r)) ∧
      st.netConn.out = hc.netConn.out ++ replay handler clock hc.hstate hc.cycles new ++ tail ∧
      (tail = [] ∨ tail = bad) := by
  induction fuel generalizing hc with
  | zero => omega
  | succ n ih =>
    obtain ⟨s0, buf0, ⟨out0, room0⟩, calls0, cyc0⟩ := hc
    simp only at hfuel hroom
    subst hroom
    obtain ⟨v, hv, _, hlt⟩ := readRequest_total buf0
    obtain ⟨res, buf1⟩ := v
    cases res with
    | error err =>
      rw [serveLoop_error handler clock n _ err buf1 hv]
      exact ⟨_, [], bad, rfl, by simp, by simp [Writer.Write, replay], Or.inr rfl⟩
    | ok req =>
      have hlt1 : buf1.length < buf0.length := hlt req rfl
      rw [serveLoop_ok handler clock n _ req buf1 hv]
      by_cases hs : statusText (handler s0 (fresh req) req).2.Status = []
      · have hw := writeTo_unsupported (handler s0 (fresh req) req).2 (Writer.mk out0 none)
          (clock cyc0) hs
        simp only [hw, Option.isSome_some, if_true]
        exact ⟨_, [req], [], rfl, by simp, by simp [replay, cycleBytes, hs], Or.inl rfl⟩
      · have hw := writeTo_supported (handler s0 (fresh req) req).2 (Writer.mk out0 none)
          (clock cyc0) hs rfl
        simp only [hw, Option.isSome_none, Bool.false_eq_true, if_false]
        by_cases hk : (handler s0 (fresh req) req).2.keepalive = true
        · simp only [hk, Bool.not_true, Bool.false_eq_true, if_false]
          obtain ⟨st, new, tail, hst, h1, h2, h3⟩ := ih
            (Conn.mk (handler s0 (fresh req) req).1 buf1
              (Writer.mk (out0 ++ expectedResponse "1.1".toList
                  (fmtInt (handler s0 (fresh req) req).2.Status)
                  (statusText (handler s0 (fresh req) req).2.Status)
                  (clock cyc0) true (handler s0 (fresh req) req).2.buf)
                none)
              (calls0 ++ [(fresh req, req)]) (cyc0 + 1))
            (by simp only; omega) rfl
          refine ⟨st, req :: new, tail, hst, ?_, ?_, h3⟩
          · rw [h1]; simp
          · rw [h2]; simp [replay, cycleBytes, hs, hk]
        · have hk2 : (handler s0 (fresh req) req).2.keepalive = false := by
            cases h : (handler s0 (fresh req) req).2.keepalive with
            | false => rfl
            | true => exact absurd h hk
          simp only [hk2, Bool.not_false, if_true]
          exact ⟨_, [req], [], rfl, by simp, by simp [replay, cycleBytes, hs, hk2], Or.inl rfl⟩

/-- Claim C16: in every cycle of `serve`, the first and the later ones alike and whatever
the writer, the handler receives a response whose status is 200 and whose body buffer is
empty; and on a connection that accepts every byte the bytes written are, cycle by cycle,
the serialization of what the handler made of that fresh response (nothing for an
unsupported status), so that a status or body of an earlier cycle never shows in a later
response and each Content-Length counts its own body only; the fixed 400 bytes follow when
the run ends on a failed read. -/
theorem C16_fresh_response_every_cycle {σ : Type} (handler : Handler σ)
    (clock : Nat → Bytes) (s : σ) (buf : Reader) :
    (∀ w : Writer, ∃ st, serve handler clock s buf w = some st ∧
      ∀ c ∈ st.calls, c.1.Status = 200 ∧ c.1.buf = []) ∧
    (∃ st tail, serve handler clock s buf conn0 = some st ∧
      st.netConn.out = replay handler clock s 0 (st.calls.map Prod.snd) ++ tail ∧
      (tail = [] ∨ tail = "HTTP/1.1 400 Bad Request\r\nConnection: close\r\n\r\n".toList)) := by
  constructor
  · intro w
    exact serveLoop_total handler clock (fun c => c.1.Status = 200 ∧ c.1.buf = [])
      (fun _ => ⟨rfl, rfl⟩) _ _ (Nat.lt_succ_self _) (by simp)
  · obtain ⟨st, new, tail, hst, h1, h2, h3⟩ := serveLoop_replay handler clock (buf.length + 1)
      { hstate := s, buf := buf, netConn := conn0, calls := [], cycles := 0 }
      (Nat.lt_succ_self _) rfl
    refine ⟨st, tail, hst, ?_, h3⟩
    rw [h2, h1]
    simp [conn0, Function.comp_def]

/-- Claim C19: for every connection input that consists only of well-formed requests, all
with `keep-alive` in their headers, and a handler that always leaves a supported status
(and the keep-alive flag as it received it), `serve` calls the handler once per request and
its output is one response per request, in order, followed by the fixed 400 bytes: the
clean close after the last request is answered with a trailing 400. -/
theorem C19_trailing_400_after_keepalive {σ : Type} (handler : Handler σ)
    (clock : Nat → Bytes) (s : σ) (qs : List Wire)
    (hwf : ∀ q ∈ qs, q.WellFormed)
    (hka : ∀ q ∈ qs, ∃ pre post : Bytes, q.hs.flatten = pre ++ "keep-alive".toList ++ post)
    (hsup : ∀ (s1 : σ) (req : Request),
      (handler s1 (fresh req) req).2.Status ∈ ([200, 201, 202, 203, 204] : List Int))
    (hflag : ∀ (s1 : σ) (req : Request),
      (handler s1 (fresh req) req).2.keepalive = req.isKeepalive) :
    ∃ st, serve handler clock s (ofBytes (wireStream qs)) conn0 = some st ∧
      st.netConn.out = responses handler clock s 0 (qs.map Wire.request)
        ++ "HTTP/1.1 400 Bad Request\r\nConnection: close\r\n\r\n".toList ∧
      st.calls = qs.map (fun q => (Response.mk 200 true [], q.request)) ∧
      st.cycles = qs.length ∧ st.buf = [] := by
  have hk : ∀ q ∈ qs, q.request.isKeepalive = true := by
    intro q hq
    exact (isKeepalive_iff q.request).2 (hka q hq)
  have hs : ∀ (s1 : σ) (req : Request), statusText (handler s1 (fresh req) req).2.Status ≠ [] := by
    intro s1 req
    have h := hsup s1 req
    simp only [List.mem_cons, List.mem_singleton, List.not_mem_nil, or_false] at h
    rcases h with h | h | h | h | h <;> (rw [h]; decide)
  obtain ⟨st, hst, h1, h2, h3, h4⟩ := serveLoop_stream handler clock hs hflag qs hwf hk
    (qs.length + 1) { hstate := s, buf := ofBytes (wireStream qs), netConn := conn0,
                      calls := [], cycles := 0 } (Nat.lt_succ_self _) rfl rfl
  refine ⟨st, serveLoop_fuel handler clock _ _ _ st hst (Nat.lt_succ_self _), ?_, ?_, ?_, h1⟩
  · rw [h2]; simp [conn0, bad]
  · rw [h3]
    simp only [List.nil_append]
    apply List.map_congr_left
    intro q hq
    simp [fresh, hk q hq]
  · rw [h4]; simp

/-- Witness of C19: two keep-alive requests answered with the body `ok`. -/
theorem C19_trailing_400_after_keepalive_witness :
    ∃ st, serve (fun (s : Unit) (res : Response) (_ : Request) =>
          (s, { res with Status := 200, buf := "ok".toList }))
        (fun _ => "now".toList) ()
        (ofBytes (wireStream
          [Wire.mk "GET".toList "/a".toList "HTTP/1.1".toList ["Connection: keep-alive".toList],
           Wire.mk "GET".toList "/b".toList "HTTP/1.1".toList ["Connection: keep-alive".toList]]))
        conn0 = some st ∧
      st.netConn.out = responses (fun (s : Unit) (res : Response) (_ : Request) =>
          (s, { res with Status := 200, buf := "ok".toList })) (fun _ => "now".toList) () 0
        ([Wire.mk "GET".toList "/a".toList "HTTP/1.1".toList ["Connection: keep-alive".toList],
          Wire.mk "GET".toList "/b".toList "HTTP/1.1".toList
            ["Connection: keep-alive".toList]].map Wire.request)
        ++ "HTTP/1.1 400 Bad Request\r\nConnection: close\r\n\r\n".toList ∧
      st.calls =
        [Wire.mk "GET".toList "/a".toList "HTTP/1.1".toList ["Connection: keep-alive".toList],
         Wire.mk "GET".toList "/b".toList "HTTP/1.1".toList
           ["Connection: keep-alive".toList]].map
          (fun q => (Response.mk 200 true [], q.request)) ∧
      st.cycles =
        [Wire.mk "GET".toList "/a".toList "HTTP/1.1".toList ["Connection: keep-alive".toList],
         Wire.mk "GET".toList "/b".toList "HTTP/1.1".toList
           ["Connection: keep-alive".toList]].length ∧
      st.buf = [] :=
  C19_trailing_400_after_keepalive
    (fun (s : Unit) (res : Response) (_ : Request) =>
      (s, { res with Status := 200, buf := "ok".toList }))
    (fun _ => "now".toList) ()
    [Wire.mk "GET".toList "/a".toList "HTTP/1.1".toList ["Connection: keep-alive".toList],
     Wire.mk "GET".toList "/b".toList "HTTP/1.1".toList ["Connection: keep-alive".toList]]
    (by decide)
    (by
      intro q hq
      simp only [List.mem_cons, List.mem_singleton, List.not_mem_nil, or_false] at hq
      rcases hq with rfl | rfl <;> exact ⟨"Connection: ".toList, [], by decide⟩)
    (by intro s1 req; simp)
    (by intro s1 req; rfl)

/-- Two connections that differ only in the version token of one request line, reached
after a run of well-formed requests, are served alike: the same handler calls, the same
bytes written, the same handler state at the end. -/
theorem serveLoop_version {σ : Type} (handler : Handler σ) (clock : Nat → Bytes)
    (m u v v1 : Bytes) (hs : List Bytes) (rest : Bytes)
    (hm : Token m) (hu : Token u) (hv : Token v) (hv1 : Token v1) (hh : HeaderLines hs)
    (qs : List Wire) (hwf : ∀ q ∈ qs, q.WellFormed) (n n1 : Nat) (s : σ) (w : Writer)
    (calls : List (Response × Request)) (cyc : Nat)
    (hn : (ofBytes (wireStream qs ++ (wireRequest m u v hs ++ rest))).length < n)
    (hn1 : (ofBytes (wireStream qs ++ (wireRequest m u v1 hs ++ rest))).length < n1) :
    ∃ st st1,
      serveLoop handler clock n
        (Conn.mk s (ofBytes (wireStream qs ++ (wireRequest m u v hs ++ rest))) w calls cyc)
        = some st ∧
      serveLoop handler clock n1
        (Conn.mk s (ofBytes (wireStream qs ++ (wireRequest m u v1 hs ++ rest))) w calls cyc)
        = some st1 ∧
      st.hstate = st1.hstate ∧ st.netConn = st1.netConn ∧ st.calls = st1.calls ∧
      st.cycles = st1.cycles := by
  induction qs generalizing n n1 s w calls cyc with
  | nil =>
    obtain ⟨k, rfl⟩ : ∃ k, n = k + 1 := ⟨n - 1, by omega⟩
    obtain ⟨k1, rfl⟩ : ∃ k1, n1 = k1 + 1 := ⟨n1 - 1, by omega⟩
    have h2 := two_le_length_wireRequest m u v hs
    have h21 := two_le_length_wireRequest m u v1 hs
    simp only [wireStream, List.map_nil, List.flatten_nil, List.nil_append, length_ofBytes,
      List.length_append] at hn hn1 ⊢
    rw [serveLoop_wellformed handler clock k _ m u v hs rest rfl hm hu hv hh,
      serveLoop_wellformed handler clock k1 _ m u v1 hs rest rfl hm hu hv1 hh]
    simp only
    split
    · exact ⟨_, _, rfl, rfl, rfl, rfl, rfl, rfl⟩
    · split
      · exact ⟨_, _, rfl, rfl, rfl, rfl, rfl, rfl⟩
      · obtain ⟨st, hst, _, _⟩ := serveLoop_bound handler clock k
          (Conn.mk (handler s
              (fresh { Method := m, URI := u, Headers := hs.flatten, Body := none })
              { Method := m, URI := u, Headers := hs.flatten, Body := none }).1
            (ofBytes rest)
            ((handler s
              (fresh { Method := m, URI := u, Headers := hs.flatten, Body := none })
              { Method := m, URI := u, Headers := hs.flatten, Body := none }).2.writeTo w
                (clock cyc)).1
            (calls ++ [(fresh { Method := m, URI := u, Headers := hs.flatten, Body := none },
              { Method := m, URI := u, Headers := hs.flatten, Body := none })])
            (cyc + 1))
          (by simp only [length_ofBytes]; omega)
        exact ⟨st, st, hst, serveLoop_fuel handler clock k k1 _ st hst
          (by simp only [length_ofBytes]; omega), rfl, rfl, rfl, rfl⟩
  | cons q qs ih =>
    obtain ⟨k, rfl⟩ : ∃ k, n = k + 1 := ⟨n - 1, by omega⟩
    obtain ⟨k1, rfl⟩ : ∃ k1, n1 = k1 + 1 := ⟨n1 - 1, by omega⟩
    obtain ⟨qm, qu, qv, qh⟩ := hwf q (by simp)
    have h2 := two_le_length_wireRequest q.m q.u q.v q.hs
    have e : ∀ x : Bytes, wireStream (q :: qs) ++ x =
        wireRequest q.m q.u q.v q.hs ++ (wireStream qs ++ x) := by
      intro x; rw [wireStream_cons]; simp [Wire.bytes]
    rw [e] at hn hn1 ⊢
    rw [e]
    simp only [length_ofBytes, List.length_append] at hn hn1
    rw [serveLoop_wellformed handler clock k _ q.m q.u q.v q.hs _ rfl qm qu qv qh,
      serveLoop_wellformed handler clock k1 _ q.m q.u q.v q.hs _ rfl qm qu qv qh]
    simp only
    split
    · exact ⟨_, _, rfl, rfl, rfl, rfl, rfl, rfl⟩
    · split
      · exact ⟨_, _, rfl, rfl, rfl, rfl, rfl, rfl⟩
      · exact ih (fun x hx => hwf x (by simp [hx])) k k1 _ _ _ _
          (by simp only [length_ofBytes, List.length_append]; omega)
          (by simp only [length_ofBytes, List.length_append]; omega)

/-- Claim C13: the protocol-version token is neither validated nor observable. For two
inputs that are identical except for the third token of a request line (any two tokens,
the empty one included), `readRequest` returns the same request, with the same method, URI
and header blob, and leaves the same bytes unread; and `serve`, with the same handler,
clock and writer, makes the same handler calls and writes the same bytes, also when the
request stands after other well-formed requests on the connection. -/
theorem C13_version_token_unobservable (m u v v1 : Bytes) (hs : List Bytes) (rest : Bytes)
    (hm : Token m) (hu : Token u) (hv : Token v) (hv1 : Token v1) (hh : HeaderLines hs) :
    (∃ req, readRequest (ofBytes (wireRequest m u v hs ++ rest)) =
        some (Except.ok req, ofBytes rest) ∧
      readRequest (ofBytes (wireRequest m u v1 hs ++ rest)) =
        some (Except.ok req, ofBytes rest)) ∧
    (∀ {σ : Type} (handler : Handler σ) (clock : Nat → Bytes) (s : σ) (w : Writer)
      (qs : List Wire), (∀ q ∈ qs, q.WellFormed) →
      ∃ st st1,
        serve handler clock s
          (ofBytes (wireStream qs ++ (wireRequest m u v hs ++ rest))) w = some st ∧
        serve handler clock s
          (ofBytes (wireStream qs ++ (wireRequest m u v1 hs ++ rest))) w = some st1 ∧
        st.netConn = st1.netConn ∧ st.calls = st1.calls ∧ st.hstate = st1.hstate ∧
        st.cycles = st1.cycles) := by
  constructor
  · have h0 : '\n' ∉ requestLine m u v := by simp [requestLine, hm.2, hu.2, hv.2]
    have h1 : '\n' ∉ requestLine m u v1 := by simp [requestLine, hm.2, hu.2, hv1.2]
    refine ⟨{ Method := m, URI := u, Headers := hs.flatten, Body := none }, ?_, ?_⟩
    · rw [ofBytes_append]
      exact readRequest_wellformed (requestLine m u v) m u hs (ofBytes rest) h0
        (parseRequestLine_requestLine m u v hm.1 hu.1 hv.1) hh
    · rw [ofBytes_append]
      exact readRequest_wellformed (requestLine m u v1) m u hs (ofBytes rest) h1
        (parseRequestLine_requestLine m u v1 hm.1 hu.1 hv1.1) hh
  · intro σ handler clock s w qs hwf
    obtain ⟨st, st1, h1, h2, h3, h4, h5, h6⟩ := serveLoop_version handler clock m u v v1 hs
      rest hm hu hv hv1 hh qs hwf _ _ s w [] 0 (Nat.lt_succ_self _) (Nat.lt_succ_self _)
    exact ⟨st, st1, h1, h2, h4, h5, h3, h6⟩

/-- Witness of C13: `HTTP/1.1` against the empty version token, in the second request of a
connection. -/
theorem C13_version_token_unobservable_witness :
    ∃ st st1,
      serve (fun (s : Unit) (res : Response) (_ : Request) => (s, res)) (fun _ => "now".toList)
        () (ofBytes (wireStream [Wire.mk "GET".toList "/".toList "HTTP/1.1".toList
            ["Connection: keep-alive".toList]]
          ++ (wireRequest "GET".toList "/b".toList "HTTP/1.1".toList [] ++ []))) conn0
        = some st ∧
      serve (fun (s : Unit) (res : Response) (_ : Request) => (s, res)) (fun _ => "now".toList)
        () (ofBytes (wireStream [Wire.mk "GET".toList "/".toList "HTTP/1.1".toList
            ["Connection: keep-alive".toList]]
          ++ (wireRequest "GET".toList "/b".toList [] [] ++ []))) conn0
        = some st1 ∧
      st.netConn = st1.netConn ∧ st.calls = st1.calls ∧ st.hstate = st1.hstate ∧
      st.cycles = st1.cycles :=
  (C13_version_token_unobservable "GET".toList "/b".toList "HTTP/1.1".toList [] [] []
      (by decide) (by decide) (by decide) (by decide) (by decide)).2
    (fun (s : Unit) (res : Response) (_ : Request) => (s, res)) (fun _ => "now".toList) ()
    conn0 [Wire.mk "GET".toList "/".toList "HTTP/1.1".toList ["Connection: keep-alive".toList]]
    (by decide)

end Http
